import Mathlib

/-!
Verification development for the `rdf-factories` repository.

The repository contains two RDF data factories that intern every term:
* `packages/memoized-hash-factory` — identities are derived from content via
  the seeded murmur3 hash ("hash regime");
* `packages/memoized-factory` — identities are monotonically increasing
  sequence numbers with content-keyed lookup tables ("index regime").

This file gives a shallow embedding of both factories: JavaScript objects
become an inductive type of runtime term values, the mutable factory state
becomes an explicit state record threaded through the operations, JavaScript
numbers become `Int`/`Nat` with explicit reduction mod 2^32 where 32-bit
semantics matter, and thrown `TypeError`s become an `Except`-style error
component of the result.
-/

/-! ## Hash Engine: murmur3 from the `murmurhash-js` dependency

`murmurhash3_32_gc(key, seed)` operates on 32-bit values; we model every
32-bit quantity as a `Nat` kept below 2^32 by explicit reduction.  The
JavaScript source reads bytes as `key.charCodeAt(i) & 0xff`; all strings fed
to the hash by this repository are ASCII, for which this is the character
code itself.
-/

def m32 (n : Nat) : Nat := n % 4294967296

/-- 32-bit rotate left, for operands below 2^32. -/
def rotl32 (x r : Nat) : Nat := (m32 (x <<< r)) ||| (x >>> (32 - r))

/-- 32-bit multiplication.  The JavaScript source splits the multiplication
into 16-bit halves to stay within double precision; as shown by the usual
carry analysis that computes exactly the product mod 2^32. -/
def mul32 (a b : Nat) : Nat := m32 (a * b)

/-- The per-block scramble of murmur3: `k1 = rotl(k1*c1, 15) * c2`. -/
def mixK1 (k : Nat) : Nat := mul32 (rotl32 (mul32 k 0xcc9e2d51) 15) 0x1b873593

/-- The main loop of `murmurhash3_32_gc`: consume 4-byte blocks, returning
the running hash and the (at most 3) remaining tail bytes. -/
def murmurGo : Nat → List Nat → Nat × List Nat
  | h1, b0 :: b1 :: b2 :: b3 :: rest =>
      let k1 := b0 ||| (b1 <<< 8) ||| (b2 <<< 16) ||| (b3 <<< 24)
      let h2 := rotl32 (Nat.xor h1 (mixK1 k1)) 13
      murmurGo (m32 (mul32 h2 5 + 0xe6546b64)) rest
  | h1, rest => (h1, rest)

/-- Assemble the tail block from the remaining 1–3 bytes (the fall-through
`switch` on `remainder` in the JavaScript source). -/
def tailK1 : List Nat → Nat
  | [b0] => b0
  | [b0, b1] => b0 ||| (b1 <<< 8)
  | [b0, b1, b2] => b0 ||| (b1 <<< 8) ||| (b2 <<< 16)
  | _ => 0

/-- `murmur3(key, seed)` of `murmurhash-js`.  The seed participates via its
32-bit pattern (JavaScript coerces it with `ToInt32` at the first bitwise
operation), hence the reduction of the `Int` seed mod 2^32. -/
def murmur3 (key : String) (seed : Int) : Nat :=
  let bytes := key.data.map (fun c => c.toNat % 256)
  let r0 := murmurGo ((seed % 4294967296).toNat) bytes
  let h2 := if r0.2.isEmpty then r0.1 else Nat.xor r0.1 (mixK1 (tailK1 r0.2))
  let h3 := Nat.xor h2 (m32 key.length)
  let h4 := mul32 (Nat.xor h3 (h3 >>> 16)) 0x85ebca6b
  let h5 := mul32 (Nat.xor h4 (h4 >>> 13)) 0xc2b2ae35
  Nat.xor h5 (h5 >>> 16)

/-! ## Runtime term values

A JavaScript value reaching `id` / the factory methods is one of: a term
object tagged `BlankNode` / `NamedNode` / `Literal`, a quad object (which has
`subject`/`predicate`/`object` fields and possibly a `graph` field, but no
`termType`), an object with an unrecognized tag, an array, or `undefined`.
Term objects optionally carry an `id` field (`tid`); JavaScript's `if
(term.id)` truthiness test treats a present id of `0` like an absent one.
A quad whose `graph` field is absent is a separate constructor `quadNoG`
(mirroring `term.graph ? this.id(term.graph) : 0`).
-/

inductive RTerm where
  | bnode (value : String) (tid : Option Int)
  | nnode (value : String) (tid : Option Int)
  | lit (value : String) (language : String) (datatype : RTerm) (tid : Option Int)
  | quadT (subject predicate object graph : RTerm) (tid : Option Int)
  | quadNoG (subject predicate object : RTerm) (tid : Option Int)
  | other (tid : Option Int)
deriving DecidableEq, Repr

/-- Inputs of `id`/`equals` (`AnyRDFObject` / `Comparable`): a term object,
an array (`Quadruple`), or `undefined`. -/
inductive Cmp where
  | term (t : RTerm)
  | arr (ts : List RTerm)
  | undef
deriving DecidableEq, Repr

/-- The `id` field of a term object, when present. -/
def tidOf : RTerm → Option Int
  | .bnode _ t => t
  | .nnode _ t => t
  | .lit _ _ _ t => t
  | .quadT _ _ _ _ t => t
  | .quadNoG _ _ _ t => t
  | .other t => t

/-- JavaScript truthiness of the `id` field: `if (term.id)` succeeds exactly
when the field is present and nonzero. -/
def jsId : Option Int → Option Int
  | some n => if n = 0 then none else some n
  | none => none

/-- The `value` field as a string (`undefined` stringifies in a template
literal; no code path of the claims reads `value` off a quad). -/
def valueOf : RTerm → String
  | .bnode v _ => v
  | .nnode v _ => v
  | .lit v _ _ _ => v
  | .quadT _ _ _ _ _ => "undefined"
  | .quadNoG _ _ _ _ => "undefined"
  | .other _ => "undefined"

/-- The `language` field of a literal (empty for other terms). -/
def languageOf : RTerm → String
  | .lit _ lang _ _ => lang
  | _ => ""

/-- The `datatype.value` field of a literal. -/
def dtValueOf : RTerm → String
  | .lit _ _ dt _ => valueOf dt
  | _ => "undefined"

/-! ## Raw JavaScript argument values for validated entry points

`blankNode` / `namedNode` accept arbitrary JavaScript values and validate
with `typeof value !== "string"` plus (for `blankNode`) a truthiness guard. -/

inductive JSVal where
  | str (s : String)
  | num (n : Int)
  | boolean (b : Bool)
  | nullv
  | obj
deriving DecidableEq, Repr

def JSVal.truthy : JSVal → Bool
  | .str s => s ≠ ""
  | .num n => n ≠ 0
  | .boolean b => b
  | .nullv => false
  | .obj => true

def JSVal.isString : JSVal → Bool
  | .str _ => true
  | _ => false

/-- String constants of the repository (the `datatypes` table and more). -/
def uriXsdString : String := "http://www.w3.org/2001/XMLSchema#string"

def uriLangString : String := "http://www.w3.org/1999/02/22-rdf-syntax-ns#langString"

def defaultGraphURI : String := "rdf:defaultGraph"

def commaSep : String := ","

def emptyS : String := ""

def bnodeGenPrefixHash : String := "b"

def bnodeGenPrefixIdx : String := "_:b"

def errBlankNode : String := "Value of BlankNode has to be type string"

def errNamedNode : String := "Value of NamedNode has to be type string"

/-- The second argument of `literal`: a language string, a datatype
`NamedNode`, or omitted (`undefined`). -/
inductive LangOrDT where
  | lang (s : String)
  | dt (node : RTerm)
  | omitted
deriving DecidableEq, Repr

/-! ## Hash-regime factory (`packages/memoized-hash-factory/src/index.ts`)

The class `MemoizedHashFactory`: mutable state is `bnIndex`, the
configuration constant `seedBase`, and `memoizationMap` keyed by identity.
JavaScript object maps become association lists where insertion prepends
and lookup returns the most recent binding.
-/

namespace MemoizedHashFactory

structure State where
  bnIndex : Nat
  seedBase : Int
  memo : List (Int × RTerm)
deriving DecidableEq, Repr

/-- `this.memoizationMap[id]` (numeric keys; distinct numbers stringify to
distinct JavaScript property names, so an `Int`-keyed lookup is exact). -/
def memoFind : List (Int × RTerm) → Int → Option RTerm
  | [], _ => none
  | (k, t) :: rest, i => if k = i then some t else memoFind rest i

/-- The method `id` restricted to term objects (the array/`undefined` guard
of the full method lives in `idAny` below; the recursive calls on quad
components and literal datatypes always receive term objects). -/
def idT (sb : Int) : RTerm → Int
  | .bnode v tid =>
      match jsId tid with
      | some n => n
      | none => Int.ofNat (murmur3 v (sb + 1))
  | .nnode v tid =>
      match jsId tid with
      | some n => n
      | none => Int.ofNat (murmur3 v (sb + 2))
  | .lit v lang dt tid =>
      match jsId tid with
      | some n => n
      | none =>
          let langOrDTId : Int :=
            if lang = "" then idT sb dt else Int.ofNat (murmur3 lang sb)
          Int.ofNat (murmur3 v (sb + 4 + langOrDTId))
  | .quadT s p o g tid =>
      match jsId tid with
      | some n => n
      | none =>
          Int.ofNat (murmur3 (toString (idT sb s + idT sb p + idT sb o + idT sb g)) (sb + 3))
  | .quadNoG s p o tid =>
      match jsId tid with
      | some n => n
      | none =>
          Int.ofNat (murmur3 (toString (idT sb s + idT sb p + idT sb o + 0)) (sb + 3))
  | .other tid =>
      match jsId tid with
      | some n => n
      | none => -1

/-- The public method `id`: `-1` for arrays and `undefined`, otherwise `idT`. -/
def idAny (sb : Int) : Cmp → Int
  | .arr _ => -1
  | .undef => -1
  | .term t => idT sb t

/-- `namedNode` after validation (also used internally by `defaultGraph`
and `literal`, whose arguments are always strings). -/
def namedNodeS (st : State) (value : String) : RTerm × State :=
  let i := idT st.seedBase (.nnode value none)
  match memoFind st.memo i with
  | some t => (t, st)
  | none =>
      let t := RTerm.nnode value (some i)
      (t, { st with memo := (i, t) :: st.memo })

/-- The public `namedNode(value)`: throws a `TypeError` for non-strings
before touching any state. -/
def namedNode (st : State) (value : JSVal) : Except String RTerm × State :=
  match value with
  | .str v =>
      let r := namedNodeS st v
      (.ok r.1, r.2)
  | _ => (.error errNamedNode, st)

/-- `blankNode` body shared by the explicit-value and generated-value paths. -/
def blankNodeCore (st : State) (usedValue : String) : RTerm × State :=
  let i := idT st.seedBase (.bnode usedValue none)
  match memoFind st.memo i with
  | some t => (t, st)
  | none =>
      let t := RTerm.bnode usedValue (some i)
      (t, { st with memo := (i, t) :: st.memo })

/-- The public `blankNode(value?)`: `if (value && typeof value !== "string")
throw`; then `value || "b" + (++this.bnIndex)` (so a falsy supplied value is
treated like an omitted one). -/
def blankNode (st : State) (value : Option JSVal) : Except String RTerm × State :=
  match value with
  | some v =>
      if v.truthy && !v.isString then (.error errBlankNode, st)
      else
        match v with
        | .str s =>
            if s = "" then
              let st1 := { st with bnIndex := st.bnIndex + 1 }
              let r := blankNodeCore st1 (bnodeGenPrefixHash ++ toString st1.bnIndex)
              (.ok r.1, r.2)
            else
              let r := blankNodeCore st s
              (.ok r.1, r.2)
        | _ =>
            let st1 := { st with bnIndex := st.bnIndex + 1 }
            let r := blankNodeCore st1 (bnodeGenPrefixHash ++ toString st1.bnIndex)
            (.ok r.1, r.2)
  | none =>
      let st1 := { st with bnIndex := st.bnIndex + 1 }
      let r := blankNodeCore st1 (bnodeGenPrefixHash ++ toString st1.bnIndex)
      (.ok r.1, r.2)

/-- `defaultGraph()` = `this.namedNode("rdf:defaultGraph")`. -/
def defaultGraph (st : State) : RTerm × State :=
  namedNodeS st defaultGraphURI

/-- `literal(value, languageOrDatatype?)` for string `value` (non-string
values delegate to the external `parseLiteral` collaborator, out of scope). -/
def literal (st : State) (value : String) (lod : LangOrDT) : RTerm × State :=
  let dres : RTerm × State :=
    match lod with
    | .lang _ => namedNodeS st uriLangString
    | .dt node => (node, st)
    | .omitted => namedNodeS st uriXsdString
  let datatype := dres.1
  let st1 := dres.2
  let language :=
    match lod with
    | .lang s => s
    | _ => emptyS
  let i := idT st1.seedBase (.lit value language datatype none)
  match memoFind st1.memo i with
  | some t => (t, st1)
  | none =>
      let t := RTerm.lit value language datatype (some i)
      (t, { st1 with memo := (i, t) :: st1.memo })

/-- The identity `quad` computes for its memoization lookup: the murmur3
hash, with seed `seedBase + 3`, of the decimal string of the numeric sum of
the four component identities. -/
def quadIdOf (sb : Int) (s p o g : RTerm) : Int :=
  Int.ofNat (murmur3 (toString (idT sb s + idT sb p + idT sb o + idT sb g)) (sb + 3))

/-- `quad(subject, predicate, object, graph?)`. -/
def quad (st : State) (s p o : RTerm) (g : Option RTerm) : RTerm × State :=
  let gres : RTerm × State :=
    match g with
    | some gt => (gt, st)
    | none => defaultGraph st
  let usedGraph := gres.1
  let st1 := gres.2
  let i := quadIdOf st.seedBase s p o usedGraph
  match memoFind st1.memo i with
  | some t => (t, st1)
  | none =>
      let t := RTerm.quadT s p o usedGraph (some i)
      (t, { st1 with memo := (i, t) :: st1.memo })

/-- Element access `a[i]` on a JavaScript array: `undefined` out of range. -/
def elemAt (ts : List RTerm) (i : Nat) : Cmp :=
  match ts.get? i with
  | some t => Cmp.term t
  | none => Cmp.undef

/-- `equals(a, b)`: falsy shortcut, element-wise identity comparison for two
arrays, identity comparison otherwise.  Pure in the hash regime (its `id`
calls never write state). -/
def equals (st : State) (a b : Cmp) : Bool :=
  match a, b with
  | .undef, .undef => true
  | .undef, _ => false
  | _, .undef => false
  | .arr xs, .arr ys =>
      idAny st.seedBase (elemAt xs 0) = idAny st.seedBase (elemAt ys 0)
        && idAny st.seedBase (elemAt xs 1) = idAny st.seedBase (elemAt ys 1)
        && idAny st.seedBase (elemAt xs 2) = idAny st.seedBase (elemAt ys 2)
        && idAny st.seedBase (elemAt xs 3) = idAny st.seedBase (elemAt ys 3)
  | _, _ => idAny st.seedBase a = idAny st.seedBase b

/-- `fromId(id)` = `this.memoizationMap[id]`. -/
def fromId (st : State) (i : Int) : Option RTerm :=
  memoFind st.memo i

/-- A fresh factory, default options: `bnIndex = 0`, `seedBase = 0`, empty
memoization map. -/
def init : State := { bnIndex := 0, seedBase := 0, memo := [] }

end MemoizedHashFactory

/-! ## Index-regime factory (`packages/memoized-factory/src/index.ts`)

The source file reuses the class name `MemoizedHashFactory`; we name the
namespace after the package.  Identities are drawn from the private counter
`index` (initially 1); deduplication goes through one content-keyed map per
term kind plus the identity-keyed `memoizationMap` for reverse lookup.
`id` on a cache miss *consumes* a counter value without storing anything,
so it is state-threaded.
-/

namespace MemoizedFactory

structure State where
  bnIndex : Nat
  index : Nat
  memo : List (Int × RTerm)
  blankNodeMap : List (String × RTerm)
  namedNodeMap : List (String × RTerm)
  literalMap : List (String × RTerm)
  quadMap : List (String × RTerm)
deriving DecidableEq, Repr

/-- String-keyed JavaScript object lookup. -/
def lookupS : List (String × RTerm) → String → Option RTerm
  | [], _ => none
  | (k, t) :: rest, i => if k = i then some t else lookupS rest i

/-- Numeric-keyed lookup for `memoizationMap`. -/
def memoFind : List (Int × RTerm) → Int → Option RTerm
  | [], _ => none
  | (k, t) :: rest, i => if k = i then some t else memoFind rest i

/-- Reading `mapValue.id` off a stored term (always present for terms the
factory stores; `.getD 0` is the value-level stand-in at unreachable points). -/
def storedId (t : RTerm) : Int := (tidOf t).getD 0

/-- The method `id` restricted to term objects, with the state threaded:
`this.mapId(term)` is inlined per kind (for quads it recursively computes
the component identities — each recursive `id` call may itself consume
counter values), then the kind-scoped map is consulted; a miss yields
`this.index++`. -/
def idT (st : State) : RTerm → Int × State
  | .bnode v tid =>
      match jsId tid with
      | some n => (n, st)
      | none =>
          match lookupS st.blankNodeMap v with
          | some tv => (storedId tv, st)
          | none => (Int.ofNat st.index, { st with index := st.index + 1 })
  | .nnode v tid =>
      match jsId tid with
      | some n => (n, st)
      | none =>
          match lookupS st.namedNodeMap v with
          | some tv => (storedId tv, st)
          | none => (Int.ofNat st.index, { st with index := st.index + 1 })
  | .lit v lang dt tid =>
      match jsId tid with
      | some n => (n, st)
      | none =>
          match lookupS st.literalMap (v ++ commaSep ++ lang ++ commaSep ++ valueOf dt) with
          | some tv => (storedId tv, st)
          | none => (Int.ofNat st.index, { st with index := st.index + 1 })
  | .quadT s p o g tid =>
      match jsId tid with
      | some n => (n, st)
      | none =>
          let r1 := idT st s
          let r2 := idT r1.2 p
          let r3 := idT r2.2 o
          let r4 := idT r3.2 g
          let k := toString r1.1 ++ commaSep ++ toString r2.1 ++ commaSep
            ++ toString r3.1 ++ commaSep ++ toString r4.1
          match lookupS r4.2.quadMap k with
          | some tv => (storedId tv, r4.2)
          | none => (Int.ofNat r4.2.index, { r4.2 with index := r4.2.index + 1 })
  | .quadNoG s p o tid =>
      match jsId tid with
      | some n => (n, st)
      | none =>
          let r1 := idT st s
          let r2 := idT r1.2 p
          let r3 := idT r2.2 o
          let k := toString r1.1 ++ commaSep ++ toString r2.1 ++ commaSep
            ++ toString r3.1 ++ commaSep ++ toString (0 : Int)
          match lookupS r3.2.quadMap k with
          | some tv => (storedId tv, r3.2)
          | none => (Int.ofNat r3.2.index, { r3.2 with index := r3.2.index + 1 })
  | .other tid =>
      match jsId tid with
      | some n => (n, st)
      | none => (-1, st)

/-- The public `id`: `-1` for arrays and `undefined`, otherwise `idT`. -/
def idAny (st : State) : Cmp → Int × State
  | .arr _ => (-1, st)
  | .undef => (-1, st)
  | .term t => idT st t

/-- The private `mapId(term)`: content key per kind (`undefined` for an
unrecognized tag); for quads this is the comma-joined component-identity
template, whose `id` calls thread the counter state. -/
def mapId (st : State) : RTerm → Option String × State
  | .bnode v _ => (some v, st)
  | .nnode v _ => (some v, st)
  | .lit v lang dt _ => (some (v ++ commaSep ++ lang ++ commaSep ++ valueOf dt), st)
  | .quadT s p o g _ =>
      let r1 := idT st s
      let r2 := idT r1.2 p
      let r3 := idT r2.2 o
      let r4 := idT r3.2 g
      (some (toString r1.1 ++ commaSep ++ toString r2.1 ++ commaSep
        ++ toString r3.1 ++ commaSep ++ toString r4.1), r4.2)
  | .quadNoG s p o _ =>
      let r1 := idT st s
      let r2 := idT r1.2 p
      let r3 := idT r2.2 o
      (some (toString r1.1 ++ commaSep ++ toString r2.1 ++ commaSep
        ++ toString r3.1 ++ commaSep ++ toString (0 : Int)), r3.2)
  | .other _ => (none, st)

/-- `namedNode` after validation (also the internal entry used by
`defaultGraph` and `literal`). -/
def namedNodeS (st : State) (value : String) : RTerm × State :=
  match lookupS st.namedNodeMap value with
  | some t => (t, st)
  | none =>
      let t := RTerm.nnode value (some (Int.ofNat st.index))
      (t, { st with
              index := st.index + 1,
              namedNodeMap := (value, t) :: st.namedNodeMap,
              memo := (Int.ofNat st.index, t) :: st.memo })

/-- The public `namedNode(value)`. -/
def namedNode (st : State) (value : JSVal) : Except String RTerm × State :=
  match value with
  | .str v =>
      let r := namedNodeS st v
      (.ok r.1, r.2)
  | _ => (.error errNamedNode, st)

/-- `blankNode` body: `if (mapId && this.blankNodeMap[mapId]) return` —
the key is the used value itself. -/
def blankNodeCore (st : State) (usedValue : String) : RTerm × State :=
  match (if usedValue = "" then none else lookupS st.blankNodeMap usedValue) with
  | some t => (t, st)
  | none =>
      let t := RTerm.bnode usedValue (some (Int.ofNat st.index))
      (t, { st with
              index := st.index + 1,
              blankNodeMap := (usedValue, t) :: st.blankNodeMap,
              memo := (Int.ofNat st.index, t) :: st.memo })

/-- The public `blankNode(value?)`; generated names use the `_:b` prefix in
this package and `bnIndex` starts at 1. -/
def blankNode (st : State) (value : Option JSVal) : Except String RTerm × State :=
  match value with
  | some v =>
      if v.truthy && !v.isString then (.error errBlankNode, st)
      else
        match v with
        | .str s =>
            if s = "" then
              let st1 := { st with bnIndex := st.bnIndex + 1 }
              let r := blankNodeCore st1 (bnodeGenPrefixIdx ++ toString st1.bnIndex)
              (.ok r.1, r.2)
            else
              let r := blankNodeCore st s
              (.ok r.1, r.2)
        | _ =>
            let st1 := { st with bnIndex := st.bnIndex + 1 }
            let r := blankNodeCore st1 (bnodeGenPrefixIdx ++ toString st1.bnIndex)
            (.ok r.1, r.2)
  | none =>
      let st1 := { st with bnIndex := st.bnIndex + 1 }
      let r := blankNodeCore st1 (bnodeGenPrefixIdx ++ toString st1.bnIndex)
      (.ok r.1, r.2)

/-- `defaultGraph()`. -/
def defaultGraph (st : State) : RTerm × State :=
  namedNodeS st defaultGraphURI

/-- `literal(value, languageOrDatatype?)` for string `value`. -/
def literal (st : State) (value : String) (lod : LangOrDT) : RTerm × State :=
  let dres : RTerm × State :=
    match lod with
    | .lang _ => namedNodeS st uriLangString
    | .dt node => (node, st)
    | .omitted => namedNodeS st uriXsdString
  let datatype := dres.1
  let st1 := dres.2
  let language :=
    match lod with
    | .lang s => s
    | _ => emptyS
  let k := value ++ commaSep ++ language ++ commaSep ++ valueOf datatype
  match lookupS st1.literalMap k with
  | some t => (t, st1)
  | none =>
      let t := RTerm.lit value language datatype (some (Int.ofNat st1.index))
      (t, { st1 with
              index := st1.index + 1,
              literalMap := (k, t) :: st1.literalMap,
              memo := (Int.ofNat st1.index, t) :: st1.memo })

/-- The content key `quad` builds inline:
`id(subject),id(predicate),id(object),(graph ? id(graph) : 0)` — the graph
slot is the sentinel `0` exactly when the `graph` argument was omitted. -/
def quadMapIdOf (st : State) (s p o : RTerm) (g : Option RTerm) : String × State :=
  let r1 := idT st s
  let r2 := idT r1.2 p
  let r3 := idT r2.2 o
  let r4 : Int × State :=
    match g with
    | some gt => idT r3.2 gt
    | none => (0, r3.2)
  (toString r1.1 ++ commaSep ++ toString r2.1 ++ commaSep
    ++ toString r3.1 ++ commaSep ++ toString r4.1, r4.2)

/-- `quad(subject, predicate, object, graph?)`. -/
def quad (st : State) (s p o : RTerm) (g : Option RTerm) : RTerm × State :=
  let gres : RTerm × State :=
    match g with
    | some gt => (gt, st)
    | none => defaultGraph st
  let usedGraph := gres.1
  let st1 := gres.2
  let kres := quadMapIdOf st1 s p o g
  let k := kres.1
  let st2 := kres.2
  match lookupS st2.quadMap k with
  | some t => (t, st2)
  | none =>
      let t := RTerm.quadT s p o usedGraph (some (Int.ofNat st2.index))
      (t, { st2 with
              index := st2.index + 1,
              quadMap := (k, t) :: st2.quadMap,
              memo := (Int.ofNat st2.index, t) :: st2.memo })

/-- `equals(a, b)`, with the `&&` short-circuit made explicit because each
`id` call may consume counter values. -/
def equals (st : State) (a b : Cmp) : Bool × State :=
  match a, b with
  | .undef, .undef => (true, st)
  | .undef, _ => (false, st)
  | _, .undef => (false, st)
  | .arr xs, .arr ys =>
      let a0 := idAny st (MemoizedHashFactory.elemAt xs 0)
      let b0 := idAny a0.2 (MemoizedHashFactory.elemAt ys 0)
      if a0.1 = b0.1 then
        let a1 := idAny b0.2 (MemoizedHashFactory.elemAt xs 1)
        let b1 := idAny a1.2 (MemoizedHashFactory.elemAt ys 1)
        if a1.1 = b1.1 then
          let a2 := idAny b1.2 (MemoizedHashFactory.elemAt xs 2)
          let b2 := idAny a2.2 (MemoizedHashFactory.elemAt ys 2)
          if a2.1 = b2.1 then
            let a3 := idAny b2.2 (MemoizedHashFactory.elemAt xs 3)
            let b3 := idAny a3.2 (MemoizedHashFactory.elemAt ys 3)
            (a3.1 = b3.1, b3.2)
          else (false, b2.2)
        else (false, b1.2)
      else (false, b0.2)
  | _, _ =>
      let ra := idAny st a
      let rb := idAny ra.2 b
      (ra.1 = rb.1, rb.2)

/-- `fromId(id)` = `this.memoizationMap[id]`. -/
def fromId (st : State) (i : Int) : Option RTerm :=
  memoFind st.memo i

/-- A fresh factory, default options (`bnIndex = 1`, counter at 1). -/
def init : State :=
  { bnIndex := 1, index := 1, memo := [],
    blankNodeMap := [], namedNodeMap := [], literalMap := [], quadMap := [] }

end MemoizedFactory

/-! ## Auxiliary definitions for the statements -/

/-- Worded from the spec (§4.2, Quad): the murmur3 hash, seeded
`seedBase + 3`, of the CONCATENATION of the decimal string forms of the four
component identities.  Refinement comparison target for the code's
`MemoizedHashFactory.quadIdOf`, which hashes the decimal form of the SUM. -/
def quadIdSpecConcat (sb i1 i2 i3 i4 : Int) : Nat :=
  murmur3 (toString i1 ++ toString i2 ++ toString i3 ++ toString i4) (sb + 3)

def exceptIsOk : Except String RTerm → Bool
  | .ok _ => true
  | .error _ => false

/-- Example strings used in concrete scenarios. -/
def exA : String := "http://ex.org/a"

def exS : String := "http://ex.org/s"

def exP : String := "http://ex.org/p"

def exO : String := "http://ex.org/o"

def exG : String := "http://ex.org/g"

def exX : String := "x"

def exEn : String := "en"

/-- Concrete hash-regime scenario: intern four named nodes, then build a
quad of them (seedBase 0, fresh factory). -/
def hScS := MemoizedHashFactory.namedNodeS MemoizedHashFactory.init exS

def hScP := MemoizedHashFactory.namedNodeS hScS.2 exP

def hScO := MemoizedHashFactory.namedNodeS hScP.2 exO

def hScG := MemoizedHashFactory.namedNodeS hScO.2 exG

def hScQuad := MemoizedHashFactory.quad hScG.2 hScS.1 hScP.1 hScO.1 (some hScG.1)

/-- Concrete index-regime scenario: intern subject, predicate, object and
the default graph node in a fresh factory. -/
def iScS := MemoizedFactory.namedNodeS MemoizedFactory.init exS

def iScP := MemoizedFactory.namedNodeS iScS.2 exP

def iScO := MemoizedFactory.namedNodeS iScP.2 exO

def iScG := MemoizedFactory.defaultGraph iScO.2

/-- Well-formedness of a hash-regime store (holds for every factory-built
store): each stored term carries its key as its `id` and its identity
recomputes to its key. -/
def MemoizedHashFactory.WF (st : MemoizedHashFactory.State) : Prop :=
  ∀ k t, MemoizedHashFactory.memoFind st.memo k = some t →
    tidOf t = some k ∧ MemoizedHashFactory.idT st.seedBase t = k

/-- All reverse-lookup keys of an index-regime store lie below the counter
(the counter value is fresh). -/
def MemoizedFactory.memoBoundLT (st : MemoizedFactory.State) : Prop :=
  ∀ k t, MemoizedFactory.memoFind st.memo k = some t → k < Int.ofNat st.index

/-- Well-formedness of an index-regime store: keys are below the counter,
and every term of a per-kind map is registered in `memoizationMap` under
its carried identity. -/
def MemoizedFactory.WF (st : MemoizedFactory.State) : Prop :=
  MemoizedFactory.memoBoundLT st
  ∧ (∀ k t, MemoizedFactory.lookupS st.blankNodeMap k = some t →
      ∃ n, tidOf t = some n ∧ MemoizedFactory.memoFind st.memo n = some t)
  ∧ (∀ k t, MemoizedFactory.lookupS st.namedNodeMap k = some t →
      ∃ n, tidOf t = some n ∧ MemoizedFactory.memoFind st.memo n = some t)
  ∧ (∀ k t, MemoizedFactory.lookupS st.literalMap k = some t →
      ∃ n, tidOf t = some n ∧ MemoizedFactory.memoFind st.memo n = some t)
  ∧ (∀ k t, MemoizedFactory.lookupS st.quadMap k = some t →
      ∃ n, tidOf t = some n ∧ MemoizedFactory.memoFind st.memo n = some t)

/-- A quad description whose components all carry truthy identities (so its
content key computes without consuming counter values); `true` for the
non-quad term kinds, `false` for unrecognized tags. -/
def MemoizedFactory.compsCarryId : RTerm → Bool
  | .quadT s p o g _ =>
      (jsId (tidOf s)).isSome && (jsId (tidOf p)).isSome
        && (jsId (tidOf o)).isSome && (jsId (tidOf g)).isSome
  | .quadNoG s p o _ =>
      (jsId (tidOf s)).isSome && (jsId (tidOf p)).isSome && (jsId (tidOf o)).isSome
  | .other _ => false
  | _ => true

/-- The content key of a description as a pure function (meaningful under
`compsCarryId`; proof-side companion of `mapId`). -/
def MemoizedFactory.pKey : RTerm → String
  | .bnode v _ => v
  | .nnode v _ => v
  | .lit v lang dt _ => v ++ commaSep ++ lang ++ commaSep ++ valueOf dt
  | .quadT s p o g _ =>
      toString ((jsId (tidOf s)).getD 0) ++ commaSep ++ toString ((jsId (tidOf p)).getD 0)
        ++ commaSep ++ toString ((jsId (tidOf o)).getD 0) ++ commaSep
        ++ toString ((jsId (tidOf g)).getD 0)
  | .quadNoG s p o _ =>
      toString ((jsId (tidOf s)).getD 0) ++ commaSep ++ toString ((jsId (tidOf p)).getD 0)
        ++ commaSep ++ toString ((jsId (tidOf o)).getD 0) ++ commaSep ++ toString (0 : Int)
  | .other _ => emptyS

/-- The kind-scoped lookup table a description is checked against. -/
def MemoizedFactory.kindFind (st : MemoizedFactory.State) : RTerm → String → Option RTerm
  | .bnode _ _, k => MemoizedFactory.lookupS st.blankNodeMap k
  | .nnode _ _, k => MemoizedFactory.lookupS st.namedNodeMap k
  | .lit _ _ _ _, k => MemoizedFactory.lookupS st.literalMap k
  | .quadT _ _ _ _ _, k => MemoizedFactory.lookupS st.quadMap k
  | .quadNoG _ _ _ _, k => MemoizedFactory.lookupS st.quadMap k
  | .other _, _ => none

/-- Frame relation between index-regime stores: all lookup tables agree and
the counter has not decreased (what a pure `id` traversal can do). -/
def MemoizedFactory.Frame (st st' : MemoizedFactory.State) : Prop :=
  st'.memo = st.memo ∧ st'.blankNodeMap = st.blankNodeMap
  ∧ st'.namedNodeMap = st.namedNodeMap ∧ st'.literalMap = st.literalMap
  ∧ st'.quadMap = st.quadMap ∧ st.index ≤ st'.index

/-! # Theorems -/

/-- **C2, counterexample.**  In the concrete scenario the identity assigned
to the quad is murmur3 of the decimal form of the *sum* of the component
identities (2462761625), which differs from the claimed hash of the
*concatenation* of their decimal forms (3830278126). -/
theorem c2_concat_counterexample :
    tidOf hScQuad.1
      ≠ some (Int.ofNat (quadIdSpecConcat 0
          (MemoizedHashFactory.idT 0 hScS.1) (MemoizedHashFactory.idT 0 hScP.1)
          (MemoizedHashFactory.idT 0 hScO.1) (MemoizedHashFactory.idT 0 hScG.1))) := by
  decide

/-- **C2, amended.**  In the hash regime the identity of a quad is the Hash
Engine applied, with seed `seedBase + 3`, to the decimal string form of the
numeric SUM of its four component identities (subject, predicate, object,
graph-or-0): so for `id` on un-id'd quad descriptions, and so for the
identity `quad` assigns on fresh creation. -/
theorem c2_quad_identity_sum :
    (∀ sb s p o g, MemoizedHashFactory.idT sb (.quadT s p o g none)
        = Int.ofNat (murmur3 (toString (MemoizedHashFactory.idT sb s
            + MemoizedHashFactory.idT sb p + MemoizedHashFactory.idT sb o
            + MemoizedHashFactory.idT sb g)) (sb + 3)))
  ∧ (∀ sb s p o, MemoizedHashFactory.idT sb (.quadNoG s p o none)
        = Int.ofNat (murmur3 (toString (MemoizedHashFactory.idT sb s
            + MemoizedHashFactory.idT sb p + MemoizedHashFactory.idT sb o
            + 0)) (sb + 3)))
  ∧ (∀ st s p o g,
        MemoizedHashFactory.memoFind st.memo (MemoizedHashFactory.quadIdOf st.seedBase s p o g) = none →
        (MemoizedHashFactory.quad st s p o (some g)).1
          = RTerm.quadT s p o g (some (MemoizedHashFactory.quadIdOf st.seedBase s p o g))) := by
  refine ⟨fun sb s p o g => rfl, fun sb s p o => rfl, fun st s p o g h => ?_⟩
  simp [MemoizedHashFactory.quad, h]

/-- **C2, witness** for the fresh-creation conjunct of
`c2_quad_identity_sum`, at the concrete interned scenario. -/
theorem c2_quad_identity_sum_witness :
    (MemoizedHashFactory.quad hScG.2 hScS.1 hScP.1 hScO.1 (some hScG.1)).1
      = RTerm.quadT hScS.1 hScP.1 hScO.1 hScG.1
          (some (MemoizedHashFactory.quadIdOf hScG.2.seedBase hScS.1 hScP.1 hScO.1 hScG.1)) :=
  c2_quad_identity_sum.2.2 hScG.2 hScS.1 hScP.1 hScO.1 hScG.1 (by decide)

/-- **C5.**  Hash-regime identities are deterministic and content-derived:
`NamedNode` descriptions hash their value with seed `seedBase + 2` and
`BlankNode` descriptions with `seedBase + 1`; calling the identity
computation twice on the same description yields the same integer (it is a
pure function of the description); and, end to end with `seedBase = 0`,
`namedNode("http://ex.org/a")` returns the identical interned instance on a
repeated call and that instance's identity is `hash("http://ex.org/a", 2)`. -/
theorem c5_hash_identity_deterministic :
    (∀ sb v, MemoizedHashFactory.idT sb (.nnode v none) = Int.ofNat (murmur3 v (sb + 2)))
  ∧ (∀ sb v, MemoizedHashFactory.idT sb (.bnode v none) = Int.ofNat (murmur3 v (sb + 1)))
  ∧ (∀ sb t, MemoizedHashFactory.idT sb t = MemoizedHashFactory.idT sb t)
  ∧ (MemoizedHashFactory.namedNode MemoizedHashFactory.init (.str exA)).1
      = .ok (RTerm.nnode exA (some (Int.ofNat (murmur3 exA 2))))
  ∧ MemoizedHashFactory.namedNode (MemoizedHashFactory.namedNode MemoizedHashFactory.init (.str exA)).2 (.str exA)
      = MemoizedHashFactory.namedNode MemoizedHashFactory.init (.str exA) := by
  exact ⟨fun sb v => rfl, fun sb v => rfl, fun sb t => rfl, rfl, rfl⟩

/-- **C4, counterexample.**  `literal("x", "")` produces a literal whose
`language` is NOT set (it is the empty string) and whose datatype is
nevertheless `rdf:langString`, not the claimed default `xsd:string`: the
datatype is forced to `rdf:langString` whenever the second argument is a
string, even the empty one. -/
theorem c4_langstring_counterexample :
    languageOf (MemoizedHashFactory.literal MemoizedHashFactory.init exX (.lang emptyS)).1 = emptyS
  ∧ dtValueOf (MemoizedHashFactory.literal MemoizedHashFactory.init exX (.lang emptyS)).1 = uriLangString
  ∧ uriLangString ≠ uriXsdString := by
  refine ⟨by decide, by decide, by decide⟩

/-- **C4, amended.**  For every string value, a freshly created literal with
the second argument omitted has language `""` and datatype `xsd:string`; a
freshly created literal whose second argument is a language *string* `l`
(including `l = ""`) has language `l` and datatype `rdf:langString` — in
both factories.  (The datatype is decided by whether the argument is a
string, not by whether the language is non-empty.) -/
theorem c4_literal_defaulting :
    (∀ st v,
        valueOf (MemoizedHashFactory.namedNodeS st uriXsdString).1 = uriXsdString →
        MemoizedHashFactory.memoFind (MemoizedHashFactory.namedNodeS st uriXsdString).2.memo
          (MemoizedHashFactory.idT (MemoizedHashFactory.namedNodeS st uriXsdString).2.seedBase
            (.lit v emptyS (MemoizedHashFactory.namedNodeS st uriXsdString).1 none)) = none →
        languageOf (MemoizedHashFactory.literal st v .omitted).1 = emptyS
          ∧ dtValueOf (MemoizedHashFactory.literal st v .omitted).1 = uriXsdString)
  ∧ (∀ st v l,
        valueOf (MemoizedHashFactory.namedNodeS st uriLangString).1 = uriLangString →
        MemoizedHashFactory.memoFind (MemoizedHashFactory.namedNodeS st uriLangString).2.memo
          (MemoizedHashFactory.idT (MemoizedHashFactory.namedNodeS st uriLangString).2.seedBase
            (.lit v l (MemoizedHashFactory.namedNodeS st uriLangString).1 none)) = none →
        languageOf (MemoizedHashFactory.literal st v (.lang l)).1 = l
          ∧ dtValueOf (MemoizedHashFactory.literal st v (.lang l)).1 = uriLangString)
  ∧ (∀ st v,
        valueOf (MemoizedFactory.namedNodeS st uriXsdString).1 = uriXsdString →
        MemoizedFactory.lookupS (MemoizedFactory.namedNodeS st uriXsdString).2.literalMap
          (v ++ commaSep ++ emptyS ++ commaSep
            ++ valueOf (MemoizedFactory.namedNodeS st uriXsdString).1) = none →
        languageOf (MemoizedFactory.literal st v .omitted).1 = emptyS
          ∧ dtValueOf (MemoizedFactory.literal st v .omitted).1 = uriXsdString)
  ∧ (∀ st v l,
        valueOf (MemoizedFactory.namedNodeS st uriLangString).1 = uriLangString →
        MemoizedFactory.lookupS (MemoizedFactory.namedNodeS st uriLangString).2.literalMap
          (v ++ commaSep ++ l ++ commaSep
            ++ valueOf (MemoizedFactory.namedNodeS st uriLangString).1) = none →
        languageOf (MemoizedFactory.literal st v (.lang l)).1 = l
          ∧ dtValueOf (MemoizedFactory.literal st v (.lang l)).1 = uriLangString) := by
  refine ⟨fun st v h1 h2 => ?_, fun st v l h1 h2 => ?_, fun st v h1 h2 => ?_,
    fun st v l h1 h2 => ?_⟩ <;>
    simp_all [MemoizedHashFactory.literal, MemoizedFactory.literal,
      languageOf, dtValueOf, emptyS]

/-- **C4, witness** applying `c4_literal_defaulting` at `v = "x"`,
`l = "en"` in fresh factories. -/
theorem c4_literal_defaulting_witness :
    (languageOf (MemoizedHashFactory.literal MemoizedHashFactory.init exX .omitted).1 = emptyS
      ∧ dtValueOf (MemoizedHashFactory.literal MemoizedHashFactory.init exX .omitted).1 = uriXsdString)
  ∧ (languageOf (MemoizedFactory.literal MemoizedFactory.init exX (.lang exEn)).1 = exEn
      ∧ dtValueOf (MemoizedFactory.literal MemoizedFactory.init exX (.lang exEn)).1 = uriLangString) :=
  ⟨c4_literal_defaulting.1 MemoizedHashFactory.init exX (by decide) (by decide),
   c4_literal_defaulting.2.2.2 MemoizedFactory.init exX exEn (by decide) (by decide)⟩

/-- **C7, counterexample.**  A supplied *falsy* non-string value does not
make `blankNode` fail: `blankNode(0)` succeeds (the `value &&` truthiness
guard treats it like an omitted argument), in both factories. -/
theorem c7_falsy_blanknode_counterexample :
    exceptIsOk (MemoizedHashFactory.blankNode MemoizedHashFactory.init (some (.num 0))).1 = true
  ∧ exceptIsOk (MemoizedFactory.blankNode MemoizedFactory.init (some (.num 0))).1 = true := by
  refine ⟨by decide, by decide⟩

/-- **C7, amended.**  `namedNode` fails synchronously with the
`InvalidArgument` `TypeError` on every non-string value, and `blankNode`
fails on every supplied *truthy* non-string value; in both cases the error
propagates to the caller and the factory state is returned unchanged
(nothing is interned).  Supplied falsy values are treated as omitted. -/
theorem c7_invalid_argument_rejects :
    (∀ st v, v.isString = false →
        MemoizedHashFactory.namedNode st v = (.error errNamedNode, st))
  ∧ (∀ st v, v.truthy = true → v.isString = false →
        MemoizedHashFactory.blankNode st (some v) = (.error errBlankNode, st))
  ∧ (∀ st v, v.isString = false →
        MemoizedFactory.namedNode st v = (.error errNamedNode, st))
  ∧ (∀ st v, v.truthy = true → v.isString = false →
        MemoizedFactory.blankNode st (some v) = (.error errBlankNode, st)) := by
  refine ⟨fun st v h1 => ?_, fun st v h1 h2 => ?_, fun st v h1 => ?_,
    fun st v h1 h2 => ?_⟩ <;>
    cases v <;>
    simp_all [MemoizedHashFactory.namedNode, MemoizedHashFactory.blankNode,
      MemoizedFactory.namedNode, MemoizedFactory.blankNode,
      JSVal.isString, JSVal.truthy]

/-- **C7, witness**: `namedNode(42)` and `blankNode(42)` fail with the
`InvalidArgument` error and unchanged state, in both factories. -/
theorem c7_invalid_argument_rejects_witness :
    MemoizedHashFactory.namedNode MemoizedHashFactory.init (.num 42)
      = (.error errNamedNode, MemoizedHashFactory.init)
  ∧ MemoizedHashFactory.blankNode MemoizedHashFactory.init (some (.num 42))
      = (.error errBlankNode, MemoizedHashFactory.init)
  ∧ MemoizedFactory.namedNode MemoizedFactory.init (.num 42)
      = (.error errNamedNode, MemoizedFactory.init)
  ∧ MemoizedFactory.blankNode MemoizedFactory.init (some (.num 42))
      = (.error errBlankNode, MemoizedFactory.init) :=
  ⟨c7_invalid_argument_rejects.1 _ _ rfl,
   c7_invalid_argument_rejects.2.1 _ _ (by decide) rfl,
   c7_invalid_argument_rejects.2.2.1 _ _ rfl,
   c7_invalid_argument_rejects.2.2.2 _ _ (by decide) rfl⟩

/-- Helper: a term object carrying a truthy `id` field short-circuits the
hash-regime `id` computation. -/
theorem MemoizedHashFactory.idT_carried {sb n : Int} {t : RTerm}
    (h : jsId (tidOf t) = some n) : MemoizedHashFactory.idT sb t = n := by
  cases t <;> simp_all [MemoizedHashFactory.idT, tidOf]

/-- Helper: a term object carrying a truthy `id` field short-circuits the
index-regime `id` computation, leaving the state untouched. -/
theorem MemoizedFactory.idT_carried_idx {st : MemoizedFactory.State} {n : Int} {t : RTerm}
    (h : jsId (tidOf t) = some n) : MemoizedFactory.idT st t = (n, st) := by
  cases t <;> simp_all [MemoizedFactory.idT, tidOf]

/-- **C8.**  `id` never fails and always returns an integer: `-1` for
arrays, for `undefined`, and for objects whose kind tag is unrecognized
(when they do not carry an identity); and a term already carrying an
assigned (truthy) identity has exactly that identity returned, with the
state untouched in the index regime. -/
theorem c8_id_total_sentinel :
    (∀ sb ts, MemoizedHashFactory.idAny sb (.arr ts) = -1)
  ∧ (∀ sb, MemoizedHashFactory.idAny sb .undef = -1)
  ∧ (∀ sb tid, jsId tid = none → MemoizedHashFactory.idT sb (.other tid) = -1)
  ∧ (∀ sb n t, jsId (tidOf t) = some n → MemoizedHashFactory.idT sb t = n)
  ∧ (∀ st ts, MemoizedFactory.idAny st (.arr ts) = (-1, st))
  ∧ (∀ st, MemoizedFactory.idAny st .undef = (-1, st))
  ∧ (∀ st tid, jsId tid = none → MemoizedFactory.idT st (.other tid) = (-1, st))
  ∧ (∀ st n t, jsId (tidOf t) = some n → MemoizedFactory.idT st t = (n, st)) := by
  refine ⟨fun sb ts => rfl, fun sb => rfl, fun sb tid h => ?_, ?_,
    fun st ts => rfl, fun st => rfl, fun st tid h => ?_, ?_⟩
  · simp [MemoizedHashFactory.idT, h]
  · exact fun sb n t h => MemoizedHashFactory.idT_carried h
  · simp [MemoizedFactory.idT, h]
  · exact fun st n t h => MemoizedFactory.idT_carried_idx h

/-- **C8, witness**: id-less unrecognized objects give `-1`; a named node
carrying identity 7 has 7 returned unchanged. -/
theorem c8_id_total_sentinel_witness :
    MemoizedHashFactory.idT 0 (.other none) = -1
  ∧ MemoizedHashFactory.idT 0 (.nnode exA (some 7)) = 7
  ∧ MemoizedFactory.idT MemoizedFactory.init (.other none) = (-1, MemoizedFactory.init)
  ∧ MemoizedFactory.idT MemoizedFactory.init (.nnode exA (some 7)) = (7, MemoizedFactory.init) :=
  ⟨c8_id_total_sentinel.2.2.1 0 none rfl,
   c8_id_total_sentinel.2.2.2.1 0 7 (.nnode exA (some 7)) (by decide),
   c8_id_total_sentinel.2.2.2.2.2.2.1 MemoizedFactory.init none rfl,
   c8_id_total_sentinel.2.2.2.2.2.2.2 MemoizedFactory.init 7 (.nnode exA (some 7)) (by decide)⟩

/-- **C3.**  The index-regime quad content key joins the four component
identities with commas, with the sentinel `0` in the graph slot exactly
when the `graph` argument was omitted, and the supplied graph node's real
identity otherwise — including for an explicitly supplied default-graph
node; hence (concretely, with the default graph interned at identity 4) an
omitted graph and an explicitly supplied default graph produce different
content keys for the same subject, predicate and object. -/
theorem c3_quad_key_graph_asymmetry :
    (∀ st s p o i1 i2 i3,
        jsId (tidOf s) = some i1 → jsId (tidOf p) = some i2 → jsId (tidOf o) = some i3 →
        MemoizedFactory.quadMapIdOf st s p o none
          = (toString i1 ++ commaSep ++ toString i2 ++ commaSep ++ toString i3
              ++ commaSep ++ toString (0 : Int), st))
  ∧ (∀ st s p o g i1 i2 i3 i4,
        jsId (tidOf s) = some i1 → jsId (tidOf p) = some i2 → jsId (tidOf o) = some i3 →
        jsId (tidOf g) = some i4 →
        MemoizedFactory.quadMapIdOf st s p o (some g)
          = (toString i1 ++ commaSep ++ toString i2 ++ commaSep ++ toString i3
              ++ commaSep ++ toString i4, st))
  ∧ (MemoizedFactory.quadMapIdOf iScG.2 iScS.1 iScP.1 iScO.1 none).1
      ≠ (MemoizedFactory.quadMapIdOf iScG.2 iScS.1 iScP.1 iScO.1 (some iScG.1)).1 := by
  refine ⟨fun st s p o i1 i2 i3 h1 h2 h3 => ?_,
    fun st s p o g i1 i2 i3 i4 h1 h2 h3 h4 => ?_, by decide⟩
  · simp [MemoizedFactory.quadMapIdOf, MemoizedFactory.idT_carried_idx h1,
      MemoizedFactory.idT_carried_idx h2, MemoizedFactory.idT_carried_idx h3]
  · simp [MemoizedFactory.quadMapIdOf, MemoizedFactory.idT_carried_idx h1,
      MemoizedFactory.idT_carried_idx h2, MemoizedFactory.idT_carried_idx h3,
      MemoizedFactory.idT_carried_idx h4]

/-- **C3, witness** applying the omitted-graph conjunct at identities
1, 2, 3. -/
theorem c3_quad_key_graph_asymmetry_witness :
    MemoizedFactory.quadMapIdOf MemoizedFactory.init
        (.nnode exS (some 1)) (.nnode exP (some 2)) (.nnode exO (some 3)) none
      = (toString (1 : Int) ++ commaSep ++ toString (2 : Int) ++ commaSep
          ++ toString (3 : Int) ++ commaSep ++ toString (0 : Int), MemoizedFactory.init) :=
  c3_quad_key_graph_asymmetry.1 MemoizedFactory.init
    (.nnode exS (some 1)) (.nnode exP (some 2)) (.nnode exO (some 3))
    1 2 3 (by decide) (by decide) (by decide)

/-- **C6.**  `equals` on two 4-element tuples is true exactly when the four
component identities match pairwise, position by position; it neither
recurses structurally nor interns the tuples (in the index regime, where
`id` is stateful, the state comes back unchanged when the components carry
identities). -/
theorem c6_tuple_equality :
    (∀ st s p o g s' p' o' g',
        MemoizedHashFactory.equals st (.arr [s, p, o, g]) (.arr [s', p', o', g']) = true
          ↔ (MemoizedHashFactory.idT st.seedBase s = MemoizedHashFactory.idT st.seedBase s'
            ∧ MemoizedHashFactory.idT st.seedBase p = MemoizedHashFactory.idT st.seedBase p'
            ∧ MemoizedHashFactory.idT st.seedBase o = MemoizedHashFactory.idT st.seedBase o'
            ∧ MemoizedHashFactory.idT st.seedBase g = MemoizedHashFactory.idT st.seedBase g'))
  ∧ (∀ st s p o g s' p' o' g' i1 i2 i3 i4 j1 j2 j3 j4,
        jsId (tidOf s) = some i1 → jsId (tidOf p) = some i2 →
        jsId (tidOf o) = some i3 → jsId (tidOf g) = some i4 →
        jsId (tidOf s') = some j1 → jsId (tidOf p') = some j2 →
        jsId (tidOf o') = some j3 → jsId (tidOf g') = some j4 →
        ((MemoizedFactory.equals st (.arr [s, p, o, g]) (.arr [s', p', o', g'])).1 = true
            ↔ (i1 = j1 ∧ i2 = j2 ∧ i3 = j3 ∧ i4 = j4))
          ∧ (MemoizedFactory.equals st (.arr [s, p, o, g]) (.arr [s', p', o', g'])).2 = st) := by
  constructor
  · intro st s p o g s' p' o' g'
    simp [MemoizedHashFactory.equals, MemoizedHashFactory.idAny,
      MemoizedHashFactory.elemAt, and_assoc]
  · intro st s p o g s' p' o' g' i1 i2 i3 i4 j1 j2 j3 j4 h1 h2 h3 h4 h5 h6 h7 h8
    have e1 : MemoizedFactory.idAny st (MemoizedHashFactory.elemAt [s, p, o, g] 0) = (i1, st) := by
      simp [MemoizedFactory.idAny, MemoizedHashFactory.elemAt, MemoizedFactory.idT_carried_idx h1]
    have e2 : MemoizedFactory.idAny st (MemoizedHashFactory.elemAt [s, p, o, g] 1) = (i2, st) := by
      simp [MemoizedFactory.idAny, MemoizedHashFactory.elemAt, MemoizedFactory.idT_carried_idx h2]
    have e3 : MemoizedFactory.idAny st (MemoizedHashFactory.elemAt [s, p, o, g] 2) = (i3, st) := by
      simp [MemoizedFactory.idAny, MemoizedHashFactory.elemAt, MemoizedFactory.idT_carried_idx h3]
    have e4 : MemoizedFactory.idAny st (MemoizedHashFactory.elemAt [s, p, o, g] 3) = (i4, st) := by
      simp [MemoizedFactory.idAny, MemoizedHashFactory.elemAt, MemoizedFactory.idT_carried_idx h4]
    have f1 : MemoizedFactory.idAny st (MemoizedHashFactory.elemAt [s', p', o', g'] 0) = (j1, st) := by
      simp [MemoizedFactory.idAny, MemoizedHashFactory.elemAt, MemoizedFactory.idT_carried_idx h5]
    have f2 : MemoizedFactory.idAny st (MemoizedHashFactory.elemAt [s', p', o', g'] 1) = (j2, st) := by
      simp [MemoizedFactory.idAny, MemoizedHashFactory.elemAt, MemoizedFactory.idT_carried_idx h6]
    have f3 : MemoizedFactory.idAny st (MemoizedHashFactory.elemAt [s', p', o', g'] 2) = (j3, st) := by
      simp [MemoizedFactory.idAny, MemoizedHashFactory.elemAt, MemoizedFactory.idT_carried_idx h7]
    have f4 : MemoizedFactory.idAny st (MemoizedHashFactory.elemAt [s', p', o', g'] 3) = (j4, st) := by
      simp [MemoizedFactory.idAny, MemoizedHashFactory.elemAt, MemoizedFactory.idT_carried_idx h8]
    simp only [MemoizedFactory.equals, e1, e2, e3, e4, f1, f2, f3, f4]
    by_cases q1 : i1 = j1 <;> by_cases q2 : i2 = j2 <;> by_cases q3 : i3 = j3 <;>
      by_cases q4 : i4 = j4 <;> simp_all

/-- **C6, witness**: concrete tuples with identities (1,2,3,4) against
(1,2,3,4) and against (1,2,3,9) — pairwise match and graph mismatch. -/
theorem c6_tuple_equality_witness :
    ((MemoizedFactory.equals MemoizedFactory.init
        (.arr [.nnode exS (some 1), .nnode exP (some 2), .nnode exO (some 3), .nnode exG (some 4)])
        (.arr [.nnode exS (some 1), .nnode exP (some 2), .nnode exO (some 3), .nnode exG (some 9)])).1 = true
      ↔ ((1 : Int) = 1 ∧ (2 : Int) = 2 ∧ (3 : Int) = 3 ∧ (4 : Int) = 9))
    ∧ (MemoizedFactory.equals MemoizedFactory.init
        (.arr [.nnode exS (some 1), .nnode exP (some 2), .nnode exO (some 3), .nnode exG (some 4)])
        (.arr [.nnode exS (some 1), .nnode exP (some 2), .nnode exO (some 3), .nnode exG (some 9)])).2
        = MemoizedFactory.init :=
  c6_tuple_equality.2 MemoizedFactory.init
    (.nnode exS (some 1)) (.nnode exP (some 2)) (.nnode exO (some 3)) (.nnode exG (some 4))
    (.nnode exS (some 1)) (.nnode exP (some 2)) (.nnode exO (some 3)) (.nnode exG (some 9))
    1 2 3 4 1 2 3 9
    (by decide) (by decide) (by decide) (by decide)
    (by decide) (by decide) (by decide) (by decide)

/-- Helper: on an un-id'd, un-interned description whose content key is
pure, the index-regime `id` returns the current counter value and bumps the
counter, touching nothing else. -/
theorem MemoizedFactory.idT_alloc {t : RTerm} (h1 : jsId (tidOf t) = none)
    (h2 : MemoizedFactory.compsCarryId t = true) :
    ∀ st : MemoizedFactory.State,
      MemoizedFactory.kindFind st t (MemoizedFactory.pKey t) = none →
      MemoizedFactory.idT st t = (Int.ofNat st.index, { st with index := st.index + 1 }) := by
  cases t with
  | bnode v tid =>
      intro st h3
      simp only [tidOf] at h1
      simp only [MemoizedFactory.kindFind, MemoizedFactory.pKey] at h3
      simp [MemoizedFactory.idT, h1, h3]
  | nnode v tid =>
      intro st h3
      simp only [tidOf] at h1
      simp only [MemoizedFactory.kindFind, MemoizedFactory.pKey] at h3
      simp [MemoizedFactory.idT, h1, h3]
  | lit v lang dt tid =>
      intro st h3
      simp only [tidOf] at h1
      simp only [MemoizedFactory.kindFind, MemoizedFactory.pKey] at h3
      simp [MemoizedFactory.idT, h1, h3]
  | quadT s p o g tid =>
      intro st h3
      simp only [tidOf] at h1
      simp only [MemoizedFactory.compsCarryId, Bool.and_eq_true,
        Option.isSome_iff_exists] at h2
      obtain ⟨⟨⟨⟨n1, e1⟩, n2, e2⟩, n3, e3⟩, n4, e4⟩ := h2
      simp only [MemoizedFactory.kindFind, MemoizedFactory.pKey,
        e1, e2, e3, e4, Option.getD_some] at h3
      simp [MemoizedFactory.idT, h1, MemoizedFactory.idT_carried_idx e1,
        MemoizedFactory.idT_carried_idx e2, MemoizedFactory.idT_carried_idx e3,
        MemoizedFactory.idT_carried_idx e4, h3]
  | quadNoG s p o tid =>
      intro st h3
      simp only [tidOf] at h1
      simp only [MemoizedFactory.compsCarryId, Bool.and_eq_true,
        Option.isSome_iff_exists] at h2
      obtain ⟨⟨⟨n1, e1⟩, n2, e2⟩, n3, e3⟩ := h2
      simp only [MemoizedFactory.kindFind, MemoizedFactory.pKey,
        e1, e2, e3, Option.getD_some] at h3
      simp [MemoizedFactory.idT, h1, MemoizedFactory.idT_carried_idx e1,
        MemoizedFactory.idT_carried_idx e2, MemoizedFactory.idT_carried_idx e3, h3]
  | other tid =>
      simp [MemoizedFactory.compsCarryId] at h2

/-- **C10.**  In the index regime, `id` on an un-interned description with
no (truthy) `id` field returns a fresh counter value and bumps the shared
counter, leaving every lookup table (the per-kind maps and the
reverse-lookup map) unchanged; `fromId` of the returned number finds
nothing; and a second `id` call on the same description returns a strictly
larger number. -/
theorem c10_id_allocates_without_insert :
    ∀ (st : MemoizedFactory.State) (t : RTerm),
      jsId (tidOf t) = none →
      MemoizedFactory.compsCarryId t = true →
      MemoizedFactory.kindFind st t (MemoizedFactory.pKey t) = none →
      MemoizedFactory.memoBoundLT st →
      MemoizedFactory.idT st t = (Int.ofNat st.index, { st with index := st.index + 1 })
      ∧ MemoizedFactory.fromId { st with index := st.index + 1 } (Int.ofNat st.index) = none
      ∧ (MemoizedFactory.idT { st with index := st.index + 1 } t).1 = Int.ofNat (st.index + 1)
      ∧ Int.ofNat st.index < Int.ofNat (st.index + 1) := by
  intro st t h1 h2 h3 hb
  have halloc := MemoizedFactory.idT_alloc h1 h2
  have hkind2 : MemoizedFactory.kindFind { st with index := st.index + 1 } t
      (MemoizedFactory.pKey t) = none := by
    cases t <;> simp_all [MemoizedFactory.kindFind]
  refine ⟨halloc st h3, ?_, by rw [halloc _ hkind2],
    Int.ofNat_lt.mpr (Nat.lt_succ_self _)⟩
  rcases hf : MemoizedFactory.memoFind st.memo (Int.ofNat st.index) with _ | u
  · simp only [MemoizedFactory.fromId]
    exact hf
  · exact absurd (hb _ _ hf) (lt_irrefl _)

/-- **C10, witness**: an un-interned named-node description in a fresh
factory gets counter value 1 without any table insertion, and 2 on the
repeat call. -/
theorem c10_id_allocates_without_insert_witness :
    MemoizedFactory.idT MemoizedFactory.init (.nnode exA none)
      = (Int.ofNat 1, { MemoizedFactory.init with index := 2 })
  ∧ MemoizedFactory.fromId { MemoizedFactory.init with index := 2 } (Int.ofNat 1) = none
  ∧ (MemoizedFactory.idT { MemoizedFactory.init with index := 2 } (.nnode exA none)).1
      = Int.ofNat 2
  ∧ Int.ofNat 1 < Int.ofNat 2 :=
  c10_id_allocates_without_insert MemoizedFactory.init (.nnode exA none)
    rfl rfl rfl (by intro k t h; simp [MemoizedFactory.memoFind, MemoizedFactory.init] at h)

/-- Helper: a freshly built named node stamped with its own content hash
recomputes to that hash (even when the hash happens to be the falsy 0). -/
theorem MemoizedHashFactory.idT_self_nnode (sb : Int) (v : String) :
    MemoizedHashFactory.idT sb (.nnode v (some (MemoizedHashFactory.idT sb (.nnode v none))))
      = MemoizedHashFactory.idT sb (.nnode v none) := by
  by_cases h : MemoizedHashFactory.idT sb (.nnode v none) = 0 <;>
    simp [MemoizedHashFactory.idT, jsId] at h ⊢ <;> simp [h]

/-- Helper: the blank-node analogue of `idT_self_nnode`. -/
theorem MemoizedHashFactory.idT_self_bnode (sb : Int) (v : String) :
    MemoizedHashFactory.idT sb (.bnode v (some (MemoizedHashFactory.idT sb (.bnode v none))))
      = MemoizedHashFactory.idT sb (.bnode v none) := by
  by_cases h : MemoizedHashFactory.idT sb (.bnode v none) = 0 <;>
    simp [MemoizedHashFactory.idT, jsId] at h ⊢ <;> simp [h]

/-- Helper: the literal analogue of `idT_self_nnode`. -/
theorem MemoizedHashFactory.idT_self_lit (sb : Int) (v lang : String) (dt : RTerm) :
    MemoizedHashFactory.idT sb
        (.lit v lang dt (some (MemoizedHashFactory.idT sb (.lit v lang dt none))))
      = MemoizedHashFactory.idT sb (.lit v lang dt none) := by
  by_cases h : MemoizedHashFactory.idT sb (.lit v lang dt none) = 0 <;>
    simp [MemoizedHashFactory.idT, jsId] at h ⊢ <;> simp [h]

/-- Helper: the quad analogue of `idT_self_nnode`. -/
theorem MemoizedHashFactory.idT_self_quadT (sb : Int) (s p o g : RTerm) :
    MemoizedHashFactory.idT sb
        (.quadT s p o g (some (MemoizedHashFactory.idT sb (.quadT s p o g none))))
      = MemoizedHashFactory.idT sb (.quadT s p o g none) := by
  by_cases h : MemoizedHashFactory.idT sb (.quadT s p o g none) = 0 <;>
    simp [MemoizedHashFactory.idT, jsId] at h ⊢ <;> simp [h]

/-- Helper: `namedNodeS` preserves well-formedness and returns a term
carrying the content hash as identity, registered in the memoization map;
the configuration fields survive. -/
theorem MemoizedHashFactory.namedNodeS_facts (st : MemoizedHashFactory.State) (v : String)
    (hw : MemoizedHashFactory.WF st) :
    MemoizedHashFactory.WF (MemoizedHashFactory.namedNodeS st v).2
    ∧ tidOf (MemoizedHashFactory.namedNodeS st v).1
        = some (MemoizedHashFactory.idT st.seedBase (.nnode v none))
    ∧ MemoizedHashFactory.idT st.seedBase (MemoizedHashFactory.namedNodeS st v).1
        = MemoizedHashFactory.idT st.seedBase (.nnode v none)
    ∧ (MemoizedHashFactory.namedNodeS st v).2.seedBase = st.seedBase
    ∧ MemoizedHashFactory.memoFind (MemoizedHashFactory.namedNodeS st v).2.memo
        (MemoizedHashFactory.idT st.seedBase (.nnode v none))
        = some (MemoizedHashFactory.namedNodeS st v).1 := by
  rcases hm : MemoizedHashFactory.memoFind st.memo
      (MemoizedHashFactory.idT st.seedBase (.nnode v none)) with _ | u
  · refine ⟨?_, ?_, ?_, ?_, ?_⟩ <;>
      simp only [MemoizedHashFactory.namedNodeS, hm] <;>
      try simp [MemoizedHashFactory.idT_self_nnode, tidOf, MemoizedHashFactory.memoFind]
    intro k u hk
    simp only [MemoizedHashFactory.memoFind] at hk
    by_cases hik : MemoizedHashFactory.idT st.seedBase (.nnode v none) = k
    · subst hik
      simp only [if_pos rfl] at hk
      cases hk
      exact ⟨rfl, MemoizedHashFactory.idT_self_nnode _ _⟩
    · rw [if_neg hik] at hk
      exact hw k u hk
  · have h1 := (hw _ _ hm).1
    have h2 := (hw _ _ hm).2
    refine ⟨?_, ?_, ?_, ?_, ?_⟩ <;> simp only [MemoizedHashFactory.namedNodeS, hm] <;>
      simp [h1, h2, hw, hm]

/-- Helper: `blankNodeCore` analogue of `namedNodeS_facts`. -/
theorem MemoizedHashFactory.blankNodeCore_facts (st : MemoizedHashFactory.State) (v : String)
    (hw : MemoizedHashFactory.WF st) :
    MemoizedHashFactory.WF (MemoizedHashFactory.blankNodeCore st v).2
    ∧ tidOf (MemoizedHashFactory.blankNodeCore st v).1
        = some (MemoizedHashFactory.idT st.seedBase (.bnode v none))
    ∧ MemoizedHashFactory.idT st.seedBase (MemoizedHashFactory.blankNodeCore st v).1
        = MemoizedHashFactory.idT st.seedBase (.bnode v none)
    ∧ (MemoizedHashFactory.blankNodeCore st v).2.seedBase = st.seedBase
    ∧ MemoizedHashFactory.memoFind (MemoizedHashFactory.blankNodeCore st v).2.memo
        (MemoizedHashFactory.idT st.seedBase (.bnode v none))
        = some (MemoizedHashFactory.blankNodeCore st v).1 := by
  rcases hm : MemoizedHashFactory.memoFind st.memo
      (MemoizedHashFactory.idT st.seedBase (.bnode v none)) with _ | u
  · refine ⟨?_, ?_, ?_, ?_, ?_⟩ <;>
      simp only [MemoizedHashFactory.blankNodeCore, hm] <;>
      try simp [MemoizedHashFactory.idT_self_bnode, tidOf, MemoizedHashFactory.memoFind]
    intro k u hk
    simp only [MemoizedHashFactory.memoFind] at hk
    by_cases hik : MemoizedHashFactory.idT st.seedBase (.bnode v none) = k
    · subst hik
      simp only [if_pos rfl] at hk
      cases hk
      exact ⟨rfl, MemoizedHashFactory.idT_self_bnode _ _⟩
    · rw [if_neg hik] at hk
      exact hw k u hk
  · have h1 := (hw _ _ hm).1
    have h2 := (hw _ _ hm).2
    refine ⟨?_, ?_, ?_, ?_, ?_⟩ <;> simp only [MemoizedHashFactory.blankNodeCore, hm] <;>
      simp [h1, h2, hw, hm]

/-- Helper: repeating `namedNodeS` with the same value returns the stored
instance and leaves the store unchanged. -/
theorem MemoizedHashFactory.namedNodeS_idem (st : MemoizedHashFactory.State) (v : String) :
    MemoizedHashFactory.namedNodeS (MemoizedHashFactory.namedNodeS st v).2 v
      = MemoizedHashFactory.namedNodeS st v := by
  rcases hm : MemoizedHashFactory.memoFind st.memo
      (MemoizedHashFactory.idT st.seedBase (.nnode v none)) with _ | u <;>
    simp [MemoizedHashFactory.namedNodeS, hm, MemoizedHashFactory.memoFind]

/-- Helper: repeating `blankNodeCore` with the same value returns the stored
instance and leaves the store unchanged. -/
theorem MemoizedHashFactory.blankNodeCore_idem (st : MemoizedHashFactory.State) (v : String) :
    MemoizedHashFactory.blankNodeCore (MemoizedHashFactory.blankNodeCore st v).2 v
      = MemoizedHashFactory.blankNodeCore st v := by
  rcases hm : MemoizedHashFactory.memoFind st.memo
      (MemoizedHashFactory.idT st.seedBase (.bnode v none)) with _ | u <;>
    simp [MemoizedHashFactory.blankNodeCore, hm, MemoizedHashFactory.memoFind]

/-- Helper: one-step unfolding of the hash-regime literal identity. -/
theorem MemoizedHashFactory.idT_lit_none (sb : Int) (v lang : String) (dt : RTerm) :
    MemoizedHashFactory.idT sb (.lit v lang dt none)
      = Int.ofNat (murmur3 v (sb + 4 + (if lang = emptyS then MemoizedHashFactory.idT sb dt
          else Int.ofNat (murmur3 lang sb)))) := rfl

/-- Helper: one-step unfolding of `quadIdOf`. -/
theorem MemoizedHashFactory.quadIdOf_unfold (sb : Int) (s p o g : RTerm) :
    MemoizedHashFactory.quadIdOf sb s p o g
      = Int.ofNat (murmur3 (toString (MemoizedHashFactory.idT sb s
          + MemoizedHashFactory.idT sb p + MemoizedHashFactory.idT sb o
          + MemoizedHashFactory.idT sb g)) (sb + 3)) := rfl

/-- Helper: `quadIdOf` is the identity of the graph-carrying quad
description. -/
theorem MemoizedHashFactory.quadIdOf_eq_idT (sb : Int) (s p o g : RTerm) :
    MemoizedHashFactory.quadIdOf sb s p o g
      = MemoizedHashFactory.idT sb (.quadT s p o g none) := rfl

/-- Helper: repeating `literal` with the same arguments against a
well-formed store returns the stored instance and leaves the store
unchanged. -/
theorem MemoizedHashFactory.literal_idem (st : MemoizedHashFactory.State) (v : String)
    (lod : LangOrDT) (hw : MemoizedHashFactory.WF st) :
    MemoizedHashFactory.literal (MemoizedHashFactory.literal st v lod).2 v lod
      = MemoizedHashFactory.literal st v lod := by
  cases lod with
  | dt node =>
      rcases hm : MemoizedHashFactory.memoFind st.memo
          (MemoizedHashFactory.idT st.seedBase (.lit v emptyS node none)) with _ | u <;>
        simp [MemoizedHashFactory.literal, hm, MemoizedHashFactory.memoFind]
  | omitted =>
      obtain ⟨hwA, htid, hidt, hsb, hmem⟩ :=
        MemoizedHashFactory.namedNodeS_facts st uriXsdString hw
      simp only [MemoizedHashFactory.literal]
      generalize hA : MemoizedHashFactory.namedNodeS st uriXsdString = A
        at htid hidt hsb hmem ⊢
      obtain ⟨dt1, stA⟩ := A
      dsimp only at htid hidt hsb hmem ⊢
      rw [hsb]
      rcases hm : MemoizedHashFactory.memoFind stA.memo
          (MemoizedHashFactory.idT st.seedBase (.lit v emptyS dt1 none)) with _ | u
      · -- fresh creation; the repeat call may even find the literal where it
        -- expected the datatype node (identity collision), which still leads
        -- back to the same identity and instance
        have hidtL := MemoizedHashFactory.idT_self_lit st.seedBase v emptyS dt1
        by_cases hix : MemoizedHashFactory.idT st.seedBase (.lit v emptyS dt1 none)
            = MemoizedHashFactory.idT st.seedBase (.nnode uriXsdString none)
        · have key : MemoizedHashFactory.idT st.seedBase
              (RTerm.lit v emptyS dt1
                (some (MemoizedHashFactory.idT st.seedBase (.lit v emptyS dt1 none))))
              = MemoizedHashFactory.idT st.seedBase dt1 := by
            rw [hidtL, hix, hidt]
          have hi2 : MemoizedHashFactory.idT st.seedBase
              (.lit v emptyS
                (RTerm.lit v emptyS dt1
                  (some (MemoizedHashFactory.idT st.seedBase (.lit v emptyS dt1 none))))
                none)
              = MemoizedHashFactory.idT st.seedBase (.lit v emptyS dt1 none) := by
            conv_lhs => rw [MemoizedHashFactory.idT_lit_none]
            rw [key]
            conv_rhs => rw [MemoizedHashFactory.idT_lit_none]
          simp only [hm, MemoizedHashFactory.namedNodeS, MemoizedHashFactory.memoFind,
            hsb]
          rw [if_pos hix]
          simp [hi2, MemoizedHashFactory.memoFind]
        · simp only [hm, MemoizedHashFactory.namedNodeS, MemoizedHashFactory.memoFind,
            hsb]
          rw [if_neg fun hc => hix hc]
          simp [hmem, hm, MemoizedHashFactory.memoFind]
      · simp only [hm, MemoizedHashFactory.namedNodeS, hsb, hmem, hm]
  | lang l =>
      obtain ⟨hwA, htid, hidt, hsb, hmem⟩ :=
        MemoizedHashFactory.namedNodeS_facts st uriLangString hw
      simp only [MemoizedHashFactory.literal]
      generalize hA : MemoizedHashFactory.namedNodeS st uriLangString = A
        at htid hidt hsb hmem ⊢
      obtain ⟨dt1, stA⟩ := A
      dsimp only at htid hidt hsb hmem ⊢
      rw [hsb]
      rcases hm : MemoizedHashFactory.memoFind stA.memo
          (MemoizedHashFactory.idT st.seedBase (.lit v l dt1 none)) with _ | u
      · have hidtL := MemoizedHashFactory.idT_self_lit st.seedBase v l dt1
        by_cases hix : MemoizedHashFactory.idT st.seedBase (.lit v l dt1 none)
            = MemoizedHashFactory.idT st.seedBase (.nnode uriLangString none)
        · have key : MemoizedHashFactory.idT st.seedBase
              (RTerm.lit v l dt1
                (some (MemoizedHashFactory.idT st.seedBase (.lit v l dt1 none))))
              = MemoizedHashFactory.idT st.seedBase dt1 := by
            rw [hidtL, hix, hidt]
          have hi2 : MemoizedHashFactory.idT st.seedBase
              (.lit v l
                (RTerm.lit v l dt1
                  (some (MemoizedHashFactory.idT st.seedBase (.lit v l dt1 none))))
                none)
              = MemoizedHashFactory.idT st.seedBase (.lit v l dt1 none) := by
            conv_lhs => rw [MemoizedHashFactory.idT_lit_none]
            rw [key]
            conv_rhs => rw [MemoizedHashFactory.idT_lit_none]
          simp only [hm, MemoizedHashFactory.namedNodeS, MemoizedHashFactory.memoFind,
            hsb]
          rw [if_pos hix]
          simp [hi2, MemoizedHashFactory.memoFind]
        · simp only [hm, MemoizedHashFactory.namedNodeS, MemoizedHashFactory.memoFind,
            hsb]
          rw [if_neg fun hc => hix hc]
          simp [hmem, hm, MemoizedHashFactory.memoFind]
      · simp only [hm, MemoizedHashFactory.namedNodeS, hsb, hmem, hm]

/-- Helper: repeating `quad` with the same arguments against a well-formed
store returns the stored instance and leaves the store unchanged. -/
theorem MemoizedHashFactory.quad_idem (st : MemoizedHashFactory.State) (s p o : RTerm)
    (g : Option RTerm) (hw : MemoizedHashFactory.WF st) :
    MemoizedHashFactory.quad (MemoizedHashFactory.quad st s p o g).2 s p o g
      = MemoizedHashFactory.quad st s p o g := by
  cases g with
  | some gt =>
      rcases hm : MemoizedHashFactory.memoFind st.memo
          (MemoizedHashFactory.quadIdOf st.seedBase s p o gt) with _ | u <;>
        simp [MemoizedHashFactory.quad, hm, MemoizedHashFactory.memoFind]
  | none =>
      obtain ⟨hwA, htid, hidt, hsb, hmem⟩ :=
        MemoizedHashFactory.namedNodeS_facts st defaultGraphURI hw
      simp only [MemoizedHashFactory.quad, MemoizedHashFactory.defaultGraph]
      generalize hA : MemoizedHashFactory.namedNodeS st defaultGraphURI = A
        at htid hidt hsb hmem ⊢
      obtain ⟨dg1, stA⟩ := A
      dsimp only at htid hidt hsb hmem ⊢
      rw [hsb]
      rcases hm : MemoizedHashFactory.memoFind stA.memo
          (MemoizedHashFactory.quadIdOf st.seedBase s p o dg1) with _ | u
      · have hidtQ := MemoizedHashFactory.idT_self_quadT st.seedBase s p o dg1
        by_cases hix : MemoizedHashFactory.quadIdOf st.seedBase s p o dg1
            = MemoizedHashFactory.idT st.seedBase (.nnode defaultGraphURI none)
        · have key : MemoizedHashFactory.idT st.seedBase
              (RTerm.quadT s p o dg1
                (some (MemoizedHashFactory.quadIdOf st.seedBase s p o dg1)))
              = MemoizedHashFactory.idT st.seedBase dg1 := by
            rw [MemoizedHashFactory.quadIdOf_eq_idT, hidtQ,
              ← MemoizedHashFactory.quadIdOf_eq_idT, hix, hidt]
          have hi2 : MemoizedHashFactory.quadIdOf st.seedBase s p o
              (RTerm.quadT s p o dg1
                (some (MemoizedHashFactory.quadIdOf st.seedBase s p o dg1)))
              = MemoizedHashFactory.quadIdOf st.seedBase s p o dg1 := by
            conv_lhs => rw [MemoizedHashFactory.quadIdOf_unfold]
            rw [key]
            conv_rhs => rw [MemoizedHashFactory.quadIdOf_unfold]
          simp only [hm, MemoizedHashFactory.namedNodeS, MemoizedHashFactory.memoFind,
            hsb]
          rw [if_pos hix]
          simp [hi2, MemoizedHashFactory.memoFind]
        · simp only [hm, MemoizedHashFactory.namedNodeS, MemoizedHashFactory.memoFind,
            hsb]
          rw [if_neg fun hc => hix hc]
          simp [hmem, hm, MemoizedHashFactory.memoFind]
      · simp only [hm, MemoizedHashFactory.namedNodeS, hsb, hmem, hm]

/-- Helper: repeating index-regime `namedNodeS` with the same value returns
the stored instance and leaves the store unchanged. -/
theorem MemoizedFactory.namedNodeS_idem_idx (st : MemoizedFactory.State) (v : String) :
    MemoizedFactory.namedNodeS (MemoizedFactory.namedNodeS st v).2 v
      = MemoizedFactory.namedNodeS st v := by
  rcases hm : MemoizedFactory.lookupS st.namedNodeMap v with _ | u <;>
    simp [MemoizedFactory.namedNodeS, hm, MemoizedFactory.lookupS]

/-- Helper: after `namedNodeS`, the value is in the named-node map, bound to
the returned instance. -/
theorem MemoizedFactory.namedNodeS_mem (st : MemoizedFactory.State) (v : String) :
    MemoizedFactory.lookupS (MemoizedFactory.namedNodeS st v).2.namedNodeMap v
      = some (MemoizedFactory.namedNodeS st v).1 := by
  rcases hm : MemoizedFactory.lookupS st.namedNodeMap v with _ | u <;>
    simp [MemoizedFactory.namedNodeS, hm, MemoizedFactory.lookupS]

/-- Helper: repeating index-regime `blankNodeCore` with the same non-empty
value returns the stored instance and leaves the store unchanged. -/
theorem MemoizedFactory.blankNodeCore_idem_idx (st : MemoizedFactory.State) (v : String)
    (hv : v ≠ emptyS) :
    MemoizedFactory.blankNodeCore (MemoizedFactory.blankNodeCore st v).2 v
      = MemoizedFactory.blankNodeCore st v := by
  simp only [emptyS] at hv
  rcases hm : MemoizedFactory.lookupS st.blankNodeMap v with _ | u <;>
    simp [MemoizedFactory.blankNodeCore, hv, hm, MemoizedFactory.lookupS]

/-- Helper: repeating index-regime `literal` with the same arguments returns
the stored instance and leaves the store unchanged. -/
theorem MemoizedFactory.literal_idem_idx (st : MemoizedFactory.State) (v : String)
    (lod : LangOrDT) :
    MemoizedFactory.literal (MemoizedFactory.literal st v lod).2 v lod
      = MemoizedFactory.literal st v lod := by
  cases lod with
  | dt node =>
      rcases hm : MemoizedFactory.lookupS st.literalMap
          (v ++ commaSep ++ emptyS ++ commaSep ++ valueOf node) with _ | u <;>
        simp [MemoizedFactory.literal, hm, MemoizedFactory.lookupS]
  | omitted =>
      have hmm := MemoizedFactory.namedNodeS_mem st uriXsdString
      simp only [MemoizedFactory.literal]
      generalize hA : MemoizedFactory.namedNodeS st uriXsdString = A at hmm ⊢
      obtain ⟨dt1, stA⟩ := A
      dsimp only at hmm ⊢
      rcases hm : MemoizedFactory.lookupS stA.literalMap
          (v ++ commaSep ++ emptyS ++ commaSep ++ valueOf dt1) with _ | u <;>
        simp [hm, MemoizedFactory.namedNodeS, hmm, MemoizedFactory.lookupS]
  | lang l =>
      have hmm := MemoizedFactory.namedNodeS_mem st uriLangString
      simp only [MemoizedFactory.literal]
      generalize hA : MemoizedFactory.namedNodeS st uriLangString = A at hmm ⊢
      obtain ⟨dt1, stA⟩ := A
      dsimp only at hmm ⊢
      rcases hm : MemoizedFactory.lookupS stA.literalMap
          (v ++ commaSep ++ l ++ commaSep ++ valueOf dt1) with _ | u <;>
        simp [hm, MemoizedFactory.namedNodeS, hmm, MemoizedFactory.lookupS]

/-- Helper: repeating index-regime `quad` with the same arguments returns
the stored instance and leaves the store unchanged, provided the components
(and the supplied graph, if any) carry truthy identities. -/
theorem MemoizedFactory.quad_idem_idx (st : MemoizedFactory.State) (s p o : RTerm)
    (g : Option RTerm) (n1 n2 n3 : Int)
    (e1 : jsId (tidOf s) = some n1) (e2 : jsId (tidOf p) = some n2)
    (e3 : jsId (tidOf o) = some n3)
    (hg : ∀ gt, g = some gt → ∃ n4, jsId (tidOf gt) = some n4) :
    MemoizedFactory.quad (MemoizedFactory.quad st s p o g).2 s p o g
      = MemoizedFactory.quad st s p o g := by
  cases g with
  | some gt =>
      obtain ⟨n4, e4⟩ := hg gt rfl
      have hk : ∀ st0 : MemoizedFactory.State,
          MemoizedFactory.quadMapIdOf st0 s p o (some gt)
            = (toString n1 ++ commaSep ++ toString n2 ++ commaSep ++ toString n3
                ++ commaSep ++ toString n4, st0) := fun st0 => by
        simp [MemoizedFactory.quadMapIdOf, MemoizedFactory.idT_carried_idx e1,
          MemoizedFactory.idT_carried_idx e2, MemoizedFactory.idT_carried_idx e3,
          MemoizedFactory.idT_carried_idx e4]
      rcases hm : MemoizedFactory.lookupS st.quadMap
          (toString n1 ++ commaSep ++ toString n2 ++ commaSep ++ toString n3
            ++ commaSep ++ toString n4) with _ | u <;>
        simp [MemoizedFactory.quad, hk, hm, MemoizedFactory.lookupS]
  | none =>
      have hk : ∀ st0 : MemoizedFactory.State,
          MemoizedFactory.quadMapIdOf st0 s p o none
            = (toString n1 ++ commaSep ++ toString n2 ++ commaSep ++ toString n3
                ++ commaSep ++ toString (0 : Int), st0) := fun st0 => by
        simp [MemoizedFactory.quadMapIdOf, MemoizedFactory.idT_carried_idx e1,
          MemoizedFactory.idT_carried_idx e2, MemoizedFactory.idT_carried_idx e3]
      have hmm := MemoizedFactory.namedNodeS_mem st defaultGraphURI
      simp only [MemoizedFactory.quad, MemoizedFactory.defaultGraph]
      generalize hA : MemoizedFactory.namedNodeS st defaultGraphURI = A at hmm ⊢
      obtain ⟨dg1, stA⟩ := A
      dsimp only at hmm ⊢
      rcases hm : MemoizedFactory.lookupS stA.quadMap
          (toString n1 ++ commaSep ++ toString n2 ++ commaSep ++ toString n3
            ++ commaSep ++ toString (0 : Int)) with _ | u <;>
        simp [hk, hm, MemoizedFactory.namedNodeS, hmm, MemoizedFactory.lookupS]

/-- **C1.**  Singleton interning: repeating a factory call with the same
(equal-by-content) description against the same store returns the identical
canonical instance — the very pair (term, store) of the first call — for
each of blankNode (explicit value), namedNode, literal and quad, in both
the hash regime (against a well-formed store, for the two operations that
intern helper nodes internally) and the index regime (for quads, when the
component terms carry identities, as interned terms do). -/
theorem c1_singleton_interning :
    (∀ (st : MemoizedHashFactory.State) v, v ≠ emptyS →
        MemoizedHashFactory.blankNode
            (MemoizedHashFactory.blankNode st (some (.str v))).2 (some (.str v))
          = MemoizedHashFactory.blankNode st (some (.str v)))
  ∧ (∀ st v,
        MemoizedHashFactory.namedNode (MemoizedHashFactory.namedNode st (.str v)).2 (.str v)
          = MemoizedHashFactory.namedNode st (.str v))
  ∧ (∀ st v lod, MemoizedHashFactory.WF st →
        MemoizedHashFactory.literal (MemoizedHashFactory.literal st v lod).2 v lod
          = MemoizedHashFactory.literal st v lod)
  ∧ (∀ st s p o g, MemoizedHashFactory.WF st →
        MemoizedHashFactory.quad (MemoizedHashFactory.quad st s p o g).2 s p o g
          = MemoizedHashFactory.quad st s p o g)
  ∧ (∀ (st : MemoizedFactory.State) v, v ≠ emptyS →
        MemoizedFactory.blankNode
            (MemoizedFactory.blankNode st (some (.str v))).2 (some (.str v))
          = MemoizedFactory.blankNode st (some (.str v)))
  ∧ (∀ st v,
        MemoizedFactory.namedNode (MemoizedFactory.namedNode st (.str v)).2 (.str v)
          = MemoizedFactory.namedNode st (.str v))
  ∧ (∀ st v lod,
        MemoizedFactory.literal (MemoizedFactory.literal st v lod).2 v lod
          = MemoizedFactory.literal st v lod)
  ∧ (∀ st s p o g n1 n2 n3,
        jsId (tidOf s) = some n1 → jsId (tidOf p) = some n2 → jsId (tidOf o) = some n3 →
        (∀ gt, g = some gt → ∃ n4, jsId (tidOf gt) = some n4) →
        MemoizedFactory.quad (MemoizedFactory.quad st s p o g).2 s p o g
          = MemoizedFactory.quad st s p o g) := by
  refine ⟨fun st v hv => ?_, fun st v => ?_,
    fun st v lod hw => MemoizedHashFactory.literal_idem st v lod hw,
    fun st s p o g hw => MemoizedHashFactory.quad_idem st s p o g hw,
    fun st v hv => ?_, fun st v => ?_,
    fun st v lod => MemoizedFactory.literal_idem_idx st v lod,
    fun st s p o g n1 n2 n3 e1 e2 e3 hg =>
      MemoizedFactory.quad_idem_idx st s p o g n1 n2 n3 e1 e2 e3 hg⟩
  · have h := MemoizedHashFactory.blankNodeCore_idem st v
    simp only [emptyS] at hv
    simp [MemoizedHashFactory.blankNode, JSVal.truthy, JSVal.isString, hv, h]
  · simp [MemoizedHashFactory.namedNode, MemoizedHashFactory.namedNodeS_idem]
  · have h := MemoizedFactory.blankNodeCore_idem_idx st v hv
    simp only [emptyS] at hv
    simp [MemoizedFactory.blankNode, JSVal.truthy, JSVal.isString, hv, h]
  · simp [MemoizedFactory.namedNode, MemoizedFactory.namedNodeS_idem_idx]

/-- **C1, witness**: concrete repeats — a hash-regime blank node and
literal in a fresh store, and an index-regime quad of carried-identity
components. -/
theorem c1_singleton_interning_witness :
    MemoizedHashFactory.blankNode
        (MemoizedHashFactory.blankNode MemoizedHashFactory.init (some (.str exX))).2
        (some (.str exX))
      = MemoizedHashFactory.blankNode MemoizedHashFactory.init (some (.str exX))
  ∧ MemoizedHashFactory.literal
        (MemoizedHashFactory.literal MemoizedHashFactory.init exX .omitted).2 exX .omitted
      = MemoizedHashFactory.literal MemoizedHashFactory.init exX .omitted
  ∧ MemoizedFactory.quad
        (MemoizedFactory.quad MemoizedFactory.init
          (.nnode exS (some 1)) (.nnode exP (some 2)) (.nnode exO (some 3))
          (some (.nnode exG (some 4)))).2
        (.nnode exS (some 1)) (.nnode exP (some 2)) (.nnode exO (some 3))
        (some (.nnode exG (some 4)))
      = MemoizedFactory.quad MemoizedFactory.init
          (.nnode exS (some 1)) (.nnode exP (some 2)) (.nnode exO (some 3))
          (some (.nnode exG (some 4))) :=
  ⟨c1_singleton_interning.1 MemoizedHashFactory.init exX (by decide),
   c1_singleton_interning.2.2.1 MemoizedHashFactory.init exX .omitted
     (by intro k t h; simp [MemoizedHashFactory.init, MemoizedHashFactory.memoFind] at h),
   c1_singleton_interning.2.2.2.2.2.2.2 MemoizedFactory.init
     (.nnode exS (some 1)) (.nnode exP (some 2)) (.nnode exO (some 3))
     (some (.nnode exG (some 4))) 1 2 3 rfl rfl rfl
     (fun gt hgt => ⟨4, by cases hgt; rfl⟩)⟩

/-- Helper: `Frame` is reflexive. -/
theorem MemoizedFactory.frame_rfl (st : MemoizedFactory.State) :
    MemoizedFactory.Frame st st :=
  ⟨rfl, rfl, rfl, rfl, rfl, le_refl _⟩

/-- Helper: `Frame` is transitive. -/
theorem MemoizedFactory.frame_trans {s1 s2 s3 : MemoizedFactory.State}
    (h1 : MemoizedFactory.Frame s1 s2) (h2 : MemoizedFactory.Frame s2 s3) :
    MemoizedFactory.Frame s1 s3 :=
  ⟨h2.1.trans h1.1, h2.2.1.trans h1.2.1, h2.2.2.1.trans h1.2.2.1,
   h2.2.2.2.1.trans h1.2.2.2.1, h2.2.2.2.2.1.trans h1.2.2.2.2.1,
   h1.2.2.2.2.2.trans h2.2.2.2.2.2⟩

/-- Helper: the index-regime `id` changes at most the counter, and only
upward. -/
theorem MemoizedFactory.idT_frame (t : RTerm) :
    ∀ st : MemoizedFactory.State,
      MemoizedFactory.Frame st (MemoizedFactory.idT st t).2 := by
  induction t with
  | bnode v tid =>
      intro st
      rcases h : jsId tid with _ | n
      · rcases hl : MemoizedFactory.lookupS st.blankNodeMap v with _ | u <;>
          simp [MemoizedFactory.idT, h, hl, MemoizedFactory.Frame, Nat.le_succ]
      · simpa [MemoizedFactory.idT, h] using MemoizedFactory.frame_rfl st
  | nnode v tid =>
      intro st
      rcases h : jsId tid with _ | n
      · rcases hl : MemoizedFactory.lookupS st.namedNodeMap v with _ | u <;>
          simp [MemoizedFactory.idT, h, hl, MemoizedFactory.Frame, Nat.le_succ]
      · simpa [MemoizedFactory.idT, h] using MemoizedFactory.frame_rfl st
  | lit v lang dt tid ihdt =>
      intro st
      rcases h : jsId tid with _ | n
      · rcases hl : MemoizedFactory.lookupS st.literalMap
            (v ++ commaSep ++ lang ++ commaSep ++ valueOf dt) with _ | u <;>
          simp [MemoizedFactory.idT, h, hl, MemoizedFactory.Frame, Nat.le_succ]
      · simpa [MemoizedFactory.idT, h] using MemoizedFactory.frame_rfl st
  | quadT s p o g tid ihs ihp iho ihg =>
      intro st
      rcases h : jsId tid with _ | n
      · have f1 := ihs st
        have f2 := ihp (MemoizedFactory.idT st s).2
        have f3 := iho (MemoizedFactory.idT (MemoizedFactory.idT st s).2 p).2
        have f4 := ihg (MemoizedFactory.idT
          (MemoizedFactory.idT (MemoizedFactory.idT st s).2 p).2 o).2
        have f14 := MemoizedFactory.frame_trans f1
          (MemoizedFactory.frame_trans f2 (MemoizedFactory.frame_trans f3 f4))
        simp only [MemoizedFactory.idT, h]
        rcases hl : MemoizedFactory.lookupS _ _ with _ | u
        · exact MemoizedFactory.frame_trans f14
            ⟨rfl, rfl, rfl, rfl, rfl, Nat.le_succ _⟩
        · exact f14
      · simpa [MemoizedFactory.idT, h] using MemoizedFactory.frame_rfl st
  | quadNoG s p o tid ihs ihp iho =>
      intro st
      rcases h : jsId tid with _ | n
      · have f1 := ihs st
        have f2 := ihp (MemoizedFactory.idT st s).2
        have f3 := iho (MemoizedFactory.idT (MemoizedFactory.idT st s).2 p).2
        have f13 := MemoizedFactory.frame_trans f1 (MemoizedFactory.frame_trans f2 f3)
        simp only [MemoizedFactory.idT, h]
        rcases hl : MemoizedFactory.lookupS _ _ with _ | u
        · exact MemoizedFactory.frame_trans f13
            ⟨rfl, rfl, rfl, rfl, rfl, Nat.le_succ _⟩
        · exact f13
      · simpa [MemoizedFactory.idT, h] using MemoizedFactory.frame_rfl st
  | other tid =>
      intro st
      rcases h : jsId tid with _ | n <;>
        simpa [MemoizedFactory.idT, h] using MemoizedFactory.frame_rfl st

/-- Helper: the quad content-key computation changes at most the counter. -/
theorem MemoizedFactory.quadMapIdOf_frame (s p o : RTerm) (g : Option RTerm)
    (st : MemoizedFactory.State) :
    MemoizedFactory.Frame st (MemoizedFactory.quadMapIdOf st s p o g).2 := by
  have f1 := MemoizedFactory.idT_frame s st
  have f2 := MemoizedFactory.idT_frame p (MemoizedFactory.idT st s).2
  have f3 := MemoizedFactory.idT_frame o
    (MemoizedFactory.idT (MemoizedFactory.idT st s).2 p).2
  have f13 := MemoizedFactory.frame_trans f1 (MemoizedFactory.frame_trans f2 f3)
  cases g with
  | some gt =>
      have f4 := MemoizedFactory.idT_frame gt (MemoizedFactory.idT
        (MemoizedFactory.idT (MemoizedFactory.idT st s).2 p).2 o).2
      simpa [MemoizedFactory.quadMapIdOf] using MemoizedFactory.frame_trans f13 f4
  | none =>
      simpa [MemoizedFactory.quadMapIdOf] using f13

/-- Helper: well-formedness transfers along `Frame`. -/
theorem MemoizedFactory.WF_frame {st st' : MemoizedFactory.State}
    (hw : MemoizedFactory.WF st) (hf : MemoizedFactory.Frame st st') :
    MemoizedFactory.WF st' := by
  obtain ⟨e1, e2, e3, e4, e5, hle⟩ := hf
  refine ⟨?_, ?_, ?_, ?_, ?_⟩
  · intro k t h
    rw [e1] at h
    exact lt_of_lt_of_le (hw.1 k t h) (Int.ofNat_le.mpr hle)
  · intro k t h
    rw [e2] at h
    obtain ⟨n, hn1, hn2⟩ := hw.2.1 k t h
    exact ⟨n, hn1, by rw [e1]; exact hn2⟩
  · intro k t h
    rw [e3] at h
    obtain ⟨n, hn1, hn2⟩ := hw.2.2.1 k t h
    exact ⟨n, hn1, by rw [e1]; exact hn2⟩
  · intro k t h
    rw [e4] at h
    obtain ⟨n, hn1, hn2⟩ := hw.2.2.2.1 k t h
    exact ⟨n, hn1, by rw [e1]; exact hn2⟩
  · intro k t h
    rw [e5] at h
    obtain ⟨n, hn1, hn2⟩ := hw.2.2.2.2 k t h
    exact ⟨n, hn1, by rw [e1]; exact hn2⟩

/-- Helper: consing a fresh binding at the current counter onto an
index-regime store preserves well-formedness; `mapSel` picks which per-kind
map receives the same binding.  Stated concretely for each operation below. -/
theorem MemoizedFactory.WF_insert (st : MemoizedFactory.State) (k : String) (t : RTerm)
    (hw : MemoizedFactory.WF st) (ht : tidOf t = some (Int.ofNat st.index))
    (st' : MemoizedFactory.State)
    (hmemo : st'.memo = (Int.ofNat st.index, t) :: st.memo)
    (hidx : st'.index = st.index + 1)
    (hmaps : ∀ u : RTerm,
      (MemoizedFactory.lookupS st'.blankNodeMap k = some u →
          u = t ∨ MemoizedFactory.lookupS st.blankNodeMap k = some u) ∧
      (MemoizedFactory.lookupS st'.namedNodeMap k = some u →
          u = t ∨ MemoizedFactory.lookupS st.namedNodeMap k = some u) ∧
      (MemoizedFactory.lookupS st'.literalMap k = some u →
          u = t ∨ MemoizedFactory.lookupS st.literalMap k = some u) ∧
      (MemoizedFactory.lookupS st'.quadMap k = some u →
          u = t ∨ MemoizedFactory.lookupS st.quadMap k = some u))
    (hmaps2 : ∀ k2 : String, k2 ≠ k →
      MemoizedFactory.lookupS st'.blankNodeMap k2 = MemoizedFactory.lookupS st.blankNodeMap k2 ∧
      MemoizedFactory.lookupS st'.namedNodeMap k2 = MemoizedFactory.lookupS st.namedNodeMap k2 ∧
      MemoizedFactory.lookupS st'.literalMap k2 = MemoizedFactory.lookupS st.literalMap k2 ∧
      MemoizedFactory.lookupS st'.quadMap k2 = MemoizedFactory.lookupS st.quadMap k2) :
    MemoizedFactory.WF st' := by
  have hbound : ∀ k2 u, MemoizedFactory.memoFind st'.memo k2 = some u →
      k2 < Int.ofNat st'.index := by
    intro k2 u h
    rw [hmemo] at h
    simp only [MemoizedFactory.memoFind] at h
    rw [hidx]
    by_cases hk : Int.ofNat st.index = k2
    · subst hk
      exact Int.ofNat_lt.mpr (Nat.lt_succ_self _)
    · rw [if_neg hk] at h
      exact lt_trans (hw.1 k2 u h) (Int.ofNat_lt.mpr (Nat.lt_succ_self _))
  have hmemoNew : MemoizedFactory.memoFind st'.memo (Int.ofNat st.index) = some t := by
    rw [hmemo]
    simp [MemoizedFactory.memoFind]
  have hmemoOld : ∀ n u, MemoizedFactory.memoFind st.memo n = some u →
      MemoizedFactory.memoFind st'.memo n = some u := by
    intro n u h
    rw [hmemo]
    simp only [MemoizedFactory.memoFind]
    rw [if_neg]
    · exact h
    · intro he
      exact absurd (hw.1 n u h) (by rw [← he]; exact lt_irrefl _)
  have hkind : ∀ (sel : MemoizedFactory.State → List (String × RTerm)),
      (∀ u : RTerm, MemoizedFactory.lookupS (sel st') k = some u →
        u = t ∨ MemoizedFactory.lookupS (sel st) k = some u) →
      (∀ k2 : String, k2 ≠ k →
        MemoizedFactory.lookupS (sel st') k2 = MemoizedFactory.lookupS (sel st) k2) →
      (∀ k2 u, MemoizedFactory.lookupS (sel st) k2 = some u →
        ∃ n, tidOf u = some n ∧ MemoizedFactory.memoFind st.memo n = some u) →
      ∀ k2 u, MemoizedFactory.lookupS (sel st') k2 = some u →
        ∃ n, tidOf u = some n ∧ MemoizedFactory.memoFind st'.memo n = some u := by
    intro sel hat hoth hold k2 u h
    by_cases hk2 : k2 = k
    · subst hk2
      rcases hat u h with rfl | hu
      · exact ⟨Int.ofNat st.index, ht, hmemoNew⟩
      · obtain ⟨n, h1, h2⟩ := hold _ _ hu
        exact ⟨n, h1, hmemoOld _ _ h2⟩
    · rw [(hoth k2 hk2)] at h
      obtain ⟨n, h1, h2⟩ := hold _ _ h
      exact ⟨n, h1, hmemoOld _ _ h2⟩
  refine ⟨hbound, ?_, ?_, ?_, ?_⟩
  · exact hkind (fun s => s.blankNodeMap) (fun u hu => (hmaps u).1 hu)
      (fun k2 hk2 => (hmaps2 k2 hk2).1) hw.2.1
  · exact hkind (fun s => s.namedNodeMap) (fun u hu => (hmaps u).2.1 hu)
      (fun k2 hk2 => (hmaps2 k2 hk2).2.1) hw.2.2.1
  · exact hkind (fun s => s.literalMap) (fun u hu => (hmaps u).2.2.1 hu)
      (fun k2 hk2 => (hmaps2 k2 hk2).2.2.1) hw.2.2.2.1
  · exact hkind (fun s => s.quadMap) (fun u hu => (hmaps u).2.2.2 hu)
      (fun k2 hk2 => (hmaps2 k2 hk2).2.2.2) hw.2.2.2.2

/-- Helper: index-regime `namedNodeS` preserves well-formedness. -/
theorem MemoizedFactory.namedNodeS_WF (st : MemoizedFactory.State) (v : String)
    (hw : MemoizedFactory.WF st) :
    MemoizedFactory.WF (MemoizedFactory.namedNodeS st v).2 := by
  rcases hm : MemoizedFactory.lookupS st.namedNodeMap v with _ | u
  · refine MemoizedFactory.WF_insert st v (RTerm.nnode v (some (Int.ofNat st.index)))
      hw rfl (MemoizedFactory.namedNodeS st v).2 ?_ ?_ ?_ ?_
    · simp [MemoizedFactory.namedNodeS, hm]
    · simp [MemoizedFactory.namedNodeS, hm]
    · intro u
      refine ⟨?_, ?_, ?_, ?_⟩ <;>
        simp [MemoizedFactory.namedNodeS, hm, MemoizedFactory.lookupS] <;> tauto
    · intro k2 hk2
      have hk2' : v ≠ k2 := fun h => hk2 h.symm
      refine ⟨?_, ?_, ?_, ?_⟩ <;>
        simp [MemoizedFactory.namedNodeS, hm, MemoizedFactory.lookupS, hk2']
  · simpa [MemoizedFactory.namedNodeS, hm] using hw

/-- Helper: index-regime `blankNodeCore` preserves well-formedness. -/
theorem MemoizedFactory.blankNodeCore_WF (st : MemoizedFactory.State) (v : String)
    (hw : MemoizedFactory.WF st) :
    MemoizedFactory.WF (MemoizedFactory.blankNodeCore st v).2 := by
  rcases hm : (if v = "" then none
      else MemoizedFactory.lookupS st.blankNodeMap v) with _ | u
  · refine MemoizedFactory.WF_insert st v (RTerm.bnode v (some (Int.ofNat st.index)))
      hw rfl (MemoizedFactory.blankNodeCore st v).2 ?_ ?_ ?_ ?_
    · simp [MemoizedFactory.blankNodeCore, hm]
    · simp [MemoizedFactory.blankNodeCore, hm]
    · intro u
      refine ⟨?_, ?_, ?_, ?_⟩ <;>
        simp [MemoizedFactory.blankNodeCore, hm, MemoizedFactory.lookupS] <;> tauto
    · intro k2 hk2
      have hk2' : v ≠ k2 := fun h => hk2 h.symm
      refine ⟨?_, ?_, ?_, ?_⟩ <;>
        simp [MemoizedFactory.blankNodeCore, hm, MemoizedFactory.lookupS, hk2']
  · simpa [MemoizedFactory.blankNodeCore, hm] using hw

/-- Helper: round trip for index-regime `namedNodeS`: the returned term's
identity leads back to it through `memoizationMap`. -/
theorem MemoizedFactory.namedNodeS_fromId_idx (st : MemoizedFactory.State) (v : String)
    (hw : MemoizedFactory.WF st) :
    ∃ i, tidOf (MemoizedFactory.namedNodeS st v).1 = some i
      ∧ MemoizedFactory.memoFind (MemoizedFactory.namedNodeS st v).2.memo i
          = some (MemoizedFactory.namedNodeS st v).1 := by
  rcases hm : MemoizedFactory.lookupS st.namedNodeMap v with _ | u
  · exact ⟨Int.ofNat st.index, by simp [MemoizedFactory.namedNodeS, hm, tidOf],
      by simp [MemoizedFactory.namedNodeS, hm, MemoizedFactory.memoFind]⟩
  · obtain ⟨n, h1, h2⟩ := hw.2.2.1 v u hm
    exact ⟨n, by simp [MemoizedFactory.namedNodeS, hm, h1],
      by simp [MemoizedFactory.namedNodeS, hm, h2]⟩

/-- Helper: round trip for index-regime `blankNodeCore`. -/
theorem MemoizedFactory.blankNodeCore_fromId_idx (st : MemoizedFactory.State) (v : String)
    (hw : MemoizedFactory.WF st) :
    ∃ i, tidOf (MemoizedFactory.blankNodeCore st v).1 = some i
      ∧ MemoizedFactory.memoFind (MemoizedFactory.blankNodeCore st v).2.memo i
          = some (MemoizedFactory.blankNodeCore st v).1 := by
  rcases hm : (if v = "" then none
      else MemoizedFactory.lookupS st.blankNodeMap v) with _ | u
  · exact ⟨Int.ofNat st.index, by simp [MemoizedFactory.blankNodeCore, hm, tidOf],
      by simp [MemoizedFactory.blankNodeCore, hm, MemoizedFactory.memoFind]⟩
  · have hm' : MemoizedFactory.lookupS st.blankNodeMap v = some u := by
      by_cases hv : v = ""
      · simp [hv] at hm
      · simpa [hv] using hm
    obtain ⟨n, h1, h2⟩ := hw.2.1 v u hm'
    exact ⟨n, by simp [MemoizedFactory.blankNodeCore, hm, h1],
      by simp [MemoizedFactory.blankNodeCore, hm, h2]⟩

/-- Helper: round trip for index-regime `literal`. -/
theorem MemoizedFactory.literal_fromId_idx (st : MemoizedFactory.State) (v : String)
    (lod : LangOrDT) (hw : MemoizedFactory.WF st) :
    ∃ i, tidOf (MemoizedFactory.literal st v lod).1 = some i
      ∧ MemoizedFactory.memoFind (MemoizedFactory.literal st v lod).2.memo i
          = some (MemoizedFactory.literal st v lod).1 := by
  cases lod with
  | dt node =>
      rcases hm : MemoizedFactory.lookupS st.literalMap
          (v ++ commaSep ++ emptyS ++ commaSep ++ valueOf node) with _ | u
      · exact ⟨Int.ofNat st.index, by simp [MemoizedFactory.literal, hm, tidOf],
          by simp [MemoizedFactory.literal, hm, MemoizedFactory.memoFind]⟩
      · obtain ⟨n, h1, h2⟩ := hw.2.2.2.1 _ u hm
        exact ⟨n, by simp [MemoizedFactory.literal, hm, h1],
          by simp [MemoizedFactory.literal, hm, h2]⟩
  | omitted =>
      have hwA := MemoizedFactory.namedNodeS_WF st uriXsdString hw
      simp only [MemoizedFactory.literal]
      generalize hA : MemoizedFactory.namedNodeS st uriXsdString = A at hwA ⊢
      obtain ⟨dt1, stA⟩ := A
      dsimp only at hwA ⊢
      rcases hm : MemoizedFactory.lookupS stA.literalMap
          (v ++ commaSep ++ emptyS ++ commaSep ++ valueOf dt1) with _ | u
      · exact ⟨Int.ofNat stA.index, by simp [hm, tidOf],
          by simp [hm, MemoizedFactory.memoFind]⟩
      · obtain ⟨n, h1, h2⟩ := hwA.2.2.2.1 _ u hm
        exact ⟨n, by simp [hm, h1], by simp [hm, h2]⟩
  | lang l =>
      have hwA := MemoizedFactory.namedNodeS_WF st uriLangString hw
      simp only [MemoizedFactory.literal]
      generalize hA : MemoizedFactory.namedNodeS st uriLangString = A at hwA ⊢
      obtain ⟨dt1, stA⟩ := A
      dsimp only at hwA ⊢
      rcases hm : MemoizedFactory.lookupS stA.literalMap
          (v ++ commaSep ++ l ++ commaSep ++ valueOf dt1) with _ | u
      · exact ⟨Int.ofNat stA.index, by simp [hm, tidOf],
          by simp [hm, MemoizedFactory.memoFind]⟩
      · obtain ⟨n, h1, h2⟩ := hwA.2.2.2.1 _ u hm
        exact ⟨n, by simp [hm, h1], by simp [hm, h2]⟩

/-- Helper: round trip for index-regime `quad`. -/
theorem MemoizedFactory.quad_fromId_idx (st : MemoizedFactory.State) (s p o : RTerm)
    (g : Option RTerm) (hw : MemoizedFactory.WF st) :
    ∃ i, tidOf (MemoizedFactory.quad st s p o g).1 = some i
      ∧ MemoizedFactory.memoFind (MemoizedFactory.quad st s p o g).2.memo i
          = some (MemoizedFactory.quad st s p o g).1 := by
  cases g with
  | some gt =>
      have hw2 := MemoizedFactory.WF_frame hw
        (MemoizedFactory.quadMapIdOf_frame s p o (some gt) st)
      simp only [MemoizedFactory.quad]
      generalize hB : MemoizedFactory.quadMapIdOf st s p o (some gt) = B at hw2 ⊢
      obtain ⟨k, st2⟩ := B
      dsimp only at hw2 ⊢
      rcases hm : MemoizedFactory.lookupS st2.quadMap k with _ | u
      · exact ⟨Int.ofNat st2.index, by simp [hm, tidOf],
          by simp [hm, MemoizedFactory.memoFind]⟩
      · obtain ⟨n, h1, h2⟩ := hw2.2.2.2.2 _ u hm
        exact ⟨n, by simp [hm, h1], by simp [hm, h2]⟩
  | none =>
      have hwA := MemoizedFactory.namedNodeS_WF st defaultGraphURI hw
      simp only [MemoizedFactory.quad, MemoizedFactory.defaultGraph]
      generalize hA : MemoizedFactory.namedNodeS st defaultGraphURI = A at hwA ⊢
      obtain ⟨dg1, stA⟩ := A
      dsimp only at hwA ⊢
      have hw2 := MemoizedFactory.WF_frame hwA
        (MemoizedFactory.quadMapIdOf_frame s p o none stA)
      generalize hB : MemoizedFactory.quadMapIdOf stA s p o none = B at hw2 ⊢
      obtain ⟨k, st2⟩ := B
      dsimp only at hw2 ⊢
      rcases hm : MemoizedFactory.lookupS st2.quadMap k with _ | u
      · exact ⟨Int.ofNat st2.index, by simp [hm, tidOf],
          by simp [hm, MemoizedFactory.memoFind]⟩
      · obtain ⟨n, h1, h2⟩ := hw2.2.2.2.2 _ u hm
        exact ⟨n, by simp [hm, h1], by simp [hm, h2]⟩

/-- Helper: round trip for hash-regime `namedNodeS`. -/
theorem MemoizedHashFactory.namedNodeS_fromId (st : MemoizedHashFactory.State) (v : String)
    (hw : MemoizedHashFactory.WF st) :
    ∃ i, tidOf (MemoizedHashFactory.namedNodeS st v).1 = some i
      ∧ MemoizedHashFactory.memoFind (MemoizedHashFactory.namedNodeS st v).2.memo i
          = some (MemoizedHashFactory.namedNodeS st v).1 :=
  ⟨MemoizedHashFactory.idT st.seedBase (.nnode v none),
   (MemoizedHashFactory.namedNodeS_facts st v hw).2.1,
   (MemoizedHashFactory.namedNodeS_facts st v hw).2.2.2.2⟩

/-- Helper: round trip for hash-regime `blankNodeCore`. -/
theorem MemoizedHashFactory.blankNodeCore_fromId (st : MemoizedHashFactory.State) (v : String)
    (hw : MemoizedHashFactory.WF st) :
    ∃ i, tidOf (MemoizedHashFactory.blankNodeCore st v).1 = some i
      ∧ MemoizedHashFactory.memoFind (MemoizedHashFactory.blankNodeCore st v).2.memo i
          = some (MemoizedHashFactory.blankNodeCore st v).1 :=
  ⟨MemoizedHashFactory.idT st.seedBase (.bnode v none),
   (MemoizedHashFactory.blankNodeCore_facts st v hw).2.1,
   (MemoizedHashFactory.blankNodeCore_facts st v hw).2.2.2.2⟩

/-- Helper: round trip for hash-regime `literal`. -/
theorem MemoizedHashFactory.literal_fromId (st : MemoizedHashFactory.State) (v : String)
    (lod : LangOrDT) (hw : MemoizedHashFactory.WF st) :
    ∃ i, tidOf (MemoizedHashFactory.literal st v lod).1 = some i
      ∧ MemoizedHashFactory.memoFind (MemoizedHashFactory.literal st v lod).2.memo i
          = some (MemoizedHashFactory.literal st v lod).1 := by
  cases lod with
  | dt node =>
      rcases hm : MemoizedHashFactory.memoFind st.memo
          (MemoizedHashFactory.idT st.seedBase (.lit v emptyS node none)) with _ | u
      · exact ⟨MemoizedHashFactory.idT st.seedBase (.lit v emptyS node none),
          by simp [MemoizedHashFactory.literal, hm, tidOf],
          by simp [MemoizedHashFactory.literal, hm, MemoizedHashFactory.memoFind]⟩
      · exact ⟨MemoizedHashFactory.idT st.seedBase (.lit v emptyS node none),
          by simp [MemoizedHashFactory.literal, hm, (hw _ _ hm).1],
          by simp [MemoizedHashFactory.literal, hm]⟩
  | omitted =>
      obtain ⟨hwA, htid, hidt, hsb, hmem⟩ :=
        MemoizedHashFactory.namedNodeS_facts st uriXsdString hw
      simp only [MemoizedHashFactory.literal]
      generalize hA : MemoizedHashFactory.namedNodeS st uriXsdString = A
        at hwA htid hidt hsb hmem ⊢
      obtain ⟨dt1, stA⟩ := A
      dsimp only at hwA htid hidt hsb hmem ⊢
      rcases hm : MemoizedHashFactory.memoFind stA.memo
          (MemoizedHashFactory.idT stA.seedBase (.lit v emptyS dt1 none)) with _ | u
      · exact ⟨MemoizedHashFactory.idT stA.seedBase (.lit v emptyS dt1 none),
          by simp [hm, tidOf], by simp [hm, MemoizedHashFactory.memoFind]⟩
      · refine ⟨MemoizedHashFactory.idT stA.seedBase (.lit v emptyS dt1 none), ?_, ?_⟩
        · have := (hwA _ _ hm).1
          simp [hm, this]
        · simp [hm]
  | lang l =>
      obtain ⟨hwA, htid, hidt, hsb, hmem⟩ :=
        MemoizedHashFactory.namedNodeS_facts st uriLangString hw
      simp only [MemoizedHashFactory.literal]
      generalize hA : MemoizedHashFactory.namedNodeS st uriLangString = A
        at hwA htid hidt hsb hmem ⊢
      obtain ⟨dt1, stA⟩ := A
      dsimp only at hwA htid hidt hsb hmem ⊢
      rcases hm : MemoizedHashFactory.memoFind stA.memo
          (MemoizedHashFactory.idT stA.seedBase (.lit v l dt1 none)) with _ | u
      · exact ⟨MemoizedHashFactory.idT stA.seedBase (.lit v l dt1 none),
          by simp [hm, tidOf], by simp [hm, MemoizedHashFactory.memoFind]⟩
      · refine ⟨MemoizedHashFactory.idT stA.seedBase (.lit v l dt1 none), ?_, ?_⟩
        · have := (hwA _ _ hm).1
          simp [hm, this]
        · simp [hm]

/-- Helper: round trip for hash-regime `quad`. -/
theorem MemoizedHashFactory.quad_fromId (st : MemoizedHashFactory.State) (s p o : RTerm)
    (g : Option RTerm) (hw : MemoizedHashFactory.WF st) :
    ∃ i, tidOf (MemoizedHashFactory.quad st s p o g).1 = some i
      ∧ MemoizedHashFactory.memoFind (MemoizedHashFactory.quad st s p o g).2.memo i
          = some (MemoizedHashFactory.quad st s p o g).1 := by
  cases g with
  | some gt =>
      rcases hm : MemoizedHashFactory.memoFind st.memo
          (MemoizedHashFactory.quadIdOf st.seedBase s p o gt) with _ | u
      · exact ⟨MemoizedHashFactory.quadIdOf st.seedBase s p o gt,
          by simp [MemoizedHashFactory.quad, hm, tidOf],
          by simp [MemoizedHashFactory.quad, hm, MemoizedHashFactory.memoFind]⟩
      · exact ⟨MemoizedHashFactory.quadIdOf st.seedBase s p o gt,
          by simp [MemoizedHashFactory.quad, hm, (hw _ _ hm).1],
          by simp [MemoizedHashFactory.quad, hm]⟩
  | none =>
      obtain ⟨hwA, htid, hidt, hsb, hmem⟩ :=
        MemoizedHashFactory.namedNodeS_facts st defaultGraphURI hw
      simp only [MemoizedHashFactory.quad, MemoizedHashFactory.defaultGraph]
      generalize hA : MemoizedHashFactory.namedNodeS st defaultGraphURI = A
        at hwA htid hidt hsb hmem ⊢
      obtain ⟨dg1, stA⟩ := A
      dsimp only at hwA htid hidt hsb hmem ⊢
      rcases hm : MemoizedHashFactory.memoFind stA.memo
          (MemoizedHashFactory.quadIdOf st.seedBase s p o dg1) with _ | u
      · exact ⟨MemoizedHashFactory.quadIdOf st.seedBase s p o dg1,
          by simp [hm, tidOf], by simp [hm, MemoizedHashFactory.memoFind]⟩
      · refine ⟨MemoizedHashFactory.quadIdOf st.seedBase s p o dg1, ?_, ?_⟩
        · have h1 := (hwA _ _ hm).1
          simp [hm, h1]
        · simp [hm]

/-- Helper: round trip for the public hash-regime `blankNode`, over every argument shape that succeeds. -/
theorem MemoizedHashFactory.blankNode_fromId (st : MemoizedHashFactory.State)
    (value : Option JSVal) (t : RTerm) (st' : MemoizedHashFactory.State)
    (hw : MemoizedHashFactory.WF st)
    (heq : MemoizedHashFactory.blankNode st value = (.ok t, st')) :
    ∃ i, tidOf t = some i ∧ MemoizedHashFactory.fromId st' i = some t := by
  cases value with
  | none =>
      simp [MemoizedHashFactory.blankNode] at heq
      obtain ⟨h1, h2⟩ := heq
      subst h1
      subst h2
      simpa [MemoizedHashFactory.fromId] using MemoizedHashFactory.blankNodeCore_fromId { st with bnIndex := st.bnIndex + 1 } _ hw
  | some v =>
      cases v with
      | str s =>
          by_cases hs : s = ""
          · simp [MemoizedHashFactory.blankNode, JSVal.truthy, JSVal.isString, hs] at heq
            obtain ⟨h1, h2⟩ := heq
            subst h1
            subst h2
            simpa [MemoizedHashFactory.fromId] using MemoizedHashFactory.blankNodeCore_fromId { st with bnIndex := st.bnIndex + 1 } _ hw
          · simp [MemoizedHashFactory.blankNode, JSVal.truthy, JSVal.isString, hs] at heq
            obtain ⟨h1, h2⟩ := heq
            subst h1
            subst h2
            simpa [MemoizedHashFactory.fromId] using MemoizedHashFactory.blankNodeCore_fromId st s hw
      | num n =>
          by_cases hn : n = 0
          · simp [MemoizedHashFactory.blankNode, JSVal.truthy, JSVal.isString, hn] at heq
            obtain ⟨h1, h2⟩ := heq
            subst h1
            subst h2
            simpa [MemoizedHashFactory.fromId] using MemoizedHashFactory.blankNodeCore_fromId { st with bnIndex := st.bnIndex + 1 } _ hw
          · simp [MemoizedHashFactory.blankNode, JSVal.truthy, JSVal.isString, hn] at heq
      | boolean b =>
          cases b
          · simp [MemoizedHashFactory.blankNode, JSVal.truthy, JSVal.isString] at heq
            obtain ⟨h1, h2⟩ := heq
            subst h1
            subst h2
            simpa [MemoizedHashFactory.fromId] using MemoizedHashFactory.blankNodeCore_fromId { st with bnIndex := st.bnIndex + 1 } _ hw
          · simp [MemoizedHashFactory.blankNode, JSVal.truthy, JSVal.isString] at heq
      | nullv =>
          simp [MemoizedHashFactory.blankNode, JSVal.truthy, JSVal.isString] at heq
          obtain ⟨h1, h2⟩ := heq
          subst h1
          subst h2
          simpa [MemoizedHashFactory.fromId] using MemoizedHashFactory.blankNodeCore_fromId { st with bnIndex := st.bnIndex + 1 } _ hw
      | obj =>
          simp [MemoizedHashFactory.blankNode, JSVal.truthy, JSVal.isString] at heq

/-- Helper: round trip for the public hash-regime `namedNode`. -/
theorem MemoizedHashFactory.namedNode_fromId (st : MemoizedHashFactory.State)
    (value : JSVal) (t : RTerm) (st' : MemoizedHashFactory.State)
    (hw : MemoizedHashFactory.WF st)
    (heq : MemoizedHashFactory.namedNode st value = (.ok t, st')) :
    ∃ i, tidOf t = some i ∧ MemoizedHashFactory.fromId st' i = some t := by
  cases value with
  | str v =>
      simp only [MemoizedHashFactory.namedNode] at heq
      injection heq with h1 h2
      injection h1 with h1
      have h := MemoizedHashFactory.namedNodeS_fromId st v hw
      rw [h1, h2] at h
      simpa [MemoizedHashFactory.fromId] using h
  | num n => exact absurd heq (by simp [MemoizedHashFactory.namedNode])
  | boolean b => exact absurd heq (by simp [MemoizedHashFactory.namedNode])
  | nullv => exact absurd heq (by simp [MemoizedHashFactory.namedNode])
  | obj => exact absurd heq (by simp [MemoizedHashFactory.namedNode])

/-- Helper: round trip for the public index-regime `blankNode`. -/
theorem MemoizedFactory.blankNode_fromId_idx (st : MemoizedFactory.State)
    (value : Option JSVal) (t : RTerm) (st' : MemoizedFactory.State)
    (hw : MemoizedFactory.WF st)
    (heq : MemoizedFactory.blankNode st value = (.ok t, st')) :
    ∃ i, tidOf t = some i ∧ MemoizedFactory.fromId st' i = some t := by
  cases value with
  | none =>
      simp [MemoizedFactory.blankNode] at heq
      obtain ⟨h1, h2⟩ := heq
      subst h1
      subst h2
      simpa [MemoizedFactory.fromId] using MemoizedFactory.blankNodeCore_fromId_idx { st with bnIndex := st.bnIndex + 1 } _ hw
  | some v =>
      cases v with
      | str s =>
          by_cases hs : s = ""
          · simp [MemoizedFactory.blankNode, JSVal.truthy, JSVal.isString, hs] at heq
            obtain ⟨h1, h2⟩ := heq
            subst h1
            subst h2
            simpa [MemoizedFactory.fromId] using MemoizedFactory.blankNodeCore_fromId_idx { st with bnIndex := st.bnIndex + 1 } _ hw
          · simp [MemoizedFactory.blankNode, JSVal.truthy, JSVal.isString, hs] at heq
            obtain ⟨h1, h2⟩ := heq
            subst h1
            subst h2
            simpa [MemoizedFactory.fromId] using MemoizedFactory.blankNodeCore_fromId_idx st s hw
      | num n =>
          by_cases hn : n = 0
          · simp [MemoizedFactory.blankNode, JSVal.truthy, JSVal.isString, hn] at heq
            obtain ⟨h1, h2⟩ := heq
            subst h1
            subst h2
            simpa [MemoizedFactory.fromId] using MemoizedFactory.blankNodeCore_fromId_idx { st with bnIndex := st.bnIndex + 1 } _ hw
          · simp [MemoizedFactory.blankNode, JSVal.truthy, JSVal.isString, hn] at heq
      | boolean b =>
          cases b
          · simp [MemoizedFactory.blankNode, JSVal.truthy, JSVal.isString] at heq
            obtain ⟨h1, h2⟩ := heq
            subst h1
            subst h2
            simpa [MemoizedFactory.fromId] using MemoizedFactory.blankNodeCore_fromId_idx { st with bnIndex := st.bnIndex + 1 } _ hw
          · simp [MemoizedFactory.blankNode, JSVal.truthy, JSVal.isString] at heq
      | nullv =>
          simp [MemoizedFactory.blankNode, JSVal.truthy, JSVal.isString] at heq
          obtain ⟨h1, h2⟩ := heq
          subst h1
          subst h2
          simpa [MemoizedFactory.fromId] using MemoizedFactory.blankNodeCore_fromId_idx { st with bnIndex := st.bnIndex + 1 } _ hw
      | obj =>
          simp [MemoizedFactory.blankNode, JSVal.truthy, JSVal.isString] at heq

/-- Helper: round trip for the public index-regime `namedNode`. -/
theorem MemoizedFactory.namedNode_fromId_idx (st : MemoizedFactory.State)
    (value : JSVal) (t : RTerm) (st' : MemoizedFactory.State)
    (hw : MemoizedFactory.WF st)
    (heq : MemoizedFactory.namedNode st value = (.ok t, st')) :
    ∃ i, tidOf t = some i ∧ MemoizedFactory.fromId st' i = some t := by
  cases value with
  | str v =>
      simp only [MemoizedFactory.namedNode] at heq
      injection heq with h1 h2
      injection h1 with h1
      have h := MemoizedFactory.namedNodeS_fromId_idx st v hw
      rw [h1, h2] at h
      simpa [MemoizedFactory.fromId] using h
  | num n => exact absurd heq (by simp [MemoizedFactory.namedNode])
  | boolean b => exact absurd heq (by simp [MemoizedFactory.namedNode])
  | nullv => exact absurd heq (by simp [MemoizedFactory.namedNode])
  | obj => exact absurd heq (by simp [MemoizedFactory.namedNode])

/-- **C9.**  Round trip through identities: for every term returned by
`blankNode`, `namedNode`, `literal` or `quad` against a well-formed store,
`fromId` of the term's assigned identity returns the identical instance, in
both the hash regime and the index regime. -/
theorem c9_fromid_roundtrip :
    (∀ (st : MemoizedHashFactory.State) value t st', MemoizedHashFactory.WF st →
        MemoizedHashFactory.blankNode st value = (.ok t, st') →
        ∃ i, tidOf t = some i ∧ MemoizedHashFactory.fromId st' i = some t)
  ∧ (∀ (st : MemoizedHashFactory.State) value t st', MemoizedHashFactory.WF st →
        MemoizedHashFactory.namedNode st value = (.ok t, st') →
        ∃ i, tidOf t = some i ∧ MemoizedHashFactory.fromId st' i = some t)
  ∧ (∀ (st : MemoizedHashFactory.State) v lod, MemoizedHashFactory.WF st →
        ∃ i, tidOf (MemoizedHashFactory.literal st v lod).1 = some i
          ∧ MemoizedHashFactory.fromId (MemoizedHashFactory.literal st v lod).2 i
              = some (MemoizedHashFactory.literal st v lod).1)
  ∧ (∀ (st : MemoizedHashFactory.State) s p o g, MemoizedHashFactory.WF st →
        ∃ i, tidOf (MemoizedHashFactory.quad st s p o g).1 = some i
          ∧ MemoizedHashFactory.fromId (MemoizedHashFactory.quad st s p o g).2 i
              = some (MemoizedHashFactory.quad st s p o g).1)
  ∧ (∀ (st : MemoizedFactory.State) value t st', MemoizedFactory.WF st →
        MemoizedFactory.blankNode st value = (.ok t, st') →
        ∃ i, tidOf t = some i ∧ MemoizedFactory.fromId st' i = some t)
  ∧ (∀ (st : MemoizedFactory.State) value t st', MemoizedFactory.WF st →
        MemoizedFactory.namedNode st value = (.ok t, st') →
        ∃ i, tidOf t = some i ∧ MemoizedFactory.fromId st' i = some t)
  ∧ (∀ (st : MemoizedFactory.State) v lod, MemoizedFactory.WF st →
        ∃ i, tidOf (MemoizedFactory.literal st v lod).1 = some i
          ∧ MemoizedFactory.fromId (MemoizedFactory.literal st v lod).2 i
              = some (MemoizedFactory.literal st v lod).1)
  ∧ (∀ (st : MemoizedFactory.State) s p o g, MemoizedFactory.WF st →
        ∃ i, tidOf (MemoizedFactory.quad st s p o g).1 = some i
          ∧ MemoizedFactory.fromId (MemoizedFactory.quad st s p o g).2 i
              = some (MemoizedFactory.quad st s p o g).1) :=
  ⟨fun st value t st' hw heq => MemoizedHashFactory.blankNode_fromId st value t st' hw heq,
   fun st value t st' hw heq => MemoizedHashFactory.namedNode_fromId st value t st' hw heq,
   fun st v lod hw => MemoizedHashFactory.literal_fromId st v lod hw,
   fun st s p o g hw => MemoizedHashFactory.quad_fromId st s p o g hw,
   fun st value t st' hw heq => MemoizedFactory.blankNode_fromId_idx st value t st' hw heq,
   fun st value t st' hw heq => MemoizedFactory.namedNode_fromId_idx st value t st' hw heq,
   fun st v lod hw => MemoizedFactory.literal_fromId_idx st v lod hw,
   fun st s p o g hw => MemoizedFactory.quad_fromId_idx st s p o g hw⟩

/-- **C9, witness**: concrete round trips — a hash-regime literal and an
index-regime quad created in fresh factories. -/
theorem c9_fromid_roundtrip_witness :
    (∃ i, tidOf (MemoizedHashFactory.literal MemoizedHashFactory.init exX .omitted).1 = some i
      ∧ MemoizedHashFactory.fromId
          (MemoizedHashFactory.literal MemoizedHashFactory.init exX .omitted).2 i
          = some (MemoizedHashFactory.literal MemoizedHashFactory.init exX .omitted).1)
  ∧ (∃ i, tidOf (MemoizedFactory.quad MemoizedFactory.init
        (.nnode exS (some 1)) (.nnode exP (some 2)) (.nnode exO (some 3)) none).1 = some i
      ∧ MemoizedFactory.fromId (MemoizedFactory.quad MemoizedFactory.init
          (.nnode exS (some 1)) (.nnode exP (some 2)) (.nnode exO (some 3)) none).2 i
          = some (MemoizedFactory.quad MemoizedFactory.init
              (.nnode exS (some 1)) (.nnode exP (some 2)) (.nnode exO (some 3)) none).1) :=
  ⟨c9_fromid_roundtrip.2.2.1 MemoizedHashFactory.init exX .omitted
     (by intro k t h; simp [MemoizedHashFactory.init, MemoizedHashFactory.memoFind] at h),
   c9_fromid_roundtrip.2.2.2.2.2.2.2 MemoizedFactory.init
     (.nnode exS (some 1)) (.nnode exP (some 2)) (.nnode exO (some 3)) none
     (by
       refine ⟨?_, ?_, ?_, ?_, ?_⟩ <;> intro k t h <;>
         simp [MemoizedFactory.init, MemoizedFactory.memoFind,
           MemoizedFactory.lookupS] at h)⟩


